import Mathlib

/-!
# Charles/main.cpp : the simulation core of the bullet-dodging game

A shallow embedding of the entity classes (`Bullet`, `Enemy`, `Player`), of
`checkCollision`, and of the bullet pass of the main loop, followed by the
properties stated about them.

Conventions of the embedding:

* a C++ `double` is a real number (`ℝ`). Where the rounding of `double`
  arithmetic decides a property stated below, in `checkCollision` and in the
  constructor and the fan loop of `Enemy`, every operation is followed by `fl`,
  the rounding to the nearest `double` (IEEE 754 binary64, ties to even,
  subnormals included), and `pow(d, 2)` is taken to return the rounded square;
  `checkCollision` also tests for overflow. Positions and velocities (the
  `Bullet` constructor and the `move` methods) are computed without rounding,
  with `cos` and `sin` of `<cmath>` as `Real.cos` and `Real.sin`; the speed of
  a bullet, which rounding does decide, is stated for `Bullet_Bullet_double`,
  the constructor with every operation rounded;
* a C++ `int` is an integer (`Int`); `/` and `%` on `int` are the truncating
  `Int.tdiv` and `Int.tmod`; the counter `gScore` wraps around as a 32-bit
  two's complement number; the other sums of `int`s are exact;
* global variables written by a function (`gScore`, `gBullets`) are passed in
  and returned;
* an operation that C++ leaves without a result (an `int` division or
  remainder by zero, the remainder of `INT_MIN` by -1) returns a `Fault`; a
  loop that may run forever takes a fuel argument and returns
  `Fault.outOfFuel` when the fuel is used up.
-/

/-! ## Constants -/

/-- The macro `PI` of the source: a decimal constant, not the number π. -/
noncomputable def PI : ℝ := 3.14159265

def SCREEN_WIDTH : Int := 640
def SCREEN_HEIGHT : Int := 480
def SCOREBOARD_WIDTH : Int := 100
def PLAYFIELD_WIDTH : Int := SCREEN_WIDTH - SCOREBOARD_WIDTH

def BULLET_WIDTH : Int := 20
def BULLET_HEIGHT : Int := 20
def BULLET_VEL : Int := 5

def ENEMY_WIDTH : Int := 20
def ENEMY_HEIGHT : Int := 20

def PLAYER_WIDTH : Int := 20
def PLAYER_HEIGHT : Int := 20

/-! ## Double arithmetic -/

/-- Nearest integer of a real number, a tie going to the even neighbour. -/
noncomputable def roundEven (q : ℝ) : ℤ :=
  if q - ⌊q⌋ < 1 / 2 then ⌊q⌋
  else if 1 / 2 < q - ⌊q⌋ then ⌊q⌋ + 1
  else if Even ⌊q⌋ then ⌊q⌋ else ⌊q⌋ + 1

/-- The exponent of the `double` format at a nonzero real `x`: the `e` with
`2 ^ e ≤ |x| < 2 ^ (e + 1)`, and -1022, the exponent of the subnormal
numbers, when `|x| < 2 ^ (-1022)`. -/
noncomputable def binade (x : ℝ) : ℤ := max (Int.log 2 |x|) (-1022)

/-- The spacing of the `double` values around `x`: 52 binary places below the
exponent of `x`. -/
noncomputable def ulp (x : ℝ) : ℝ := (2 : ℝ) ^ (binade x - 52)

/-- The `double` nearest to a real number, a tie going to the even
significand (IEEE 754 binary64, round to nearest even). It is the value a
`double` operation returns for the exact result `x` as long as that value is
at most `DBL_MAX` in size; beyond that the operation overflows. -/
noncomputable def fl (x : ℝ) : ℝ :=
  if x = 0 then 0
  else if 0 < x then (roundEven (x / ulp x) : ℝ) * ulp x
  else -((roundEven (-x / ulp x) : ℝ) * ulp x)

/-- The largest finite `double`, `(2 ^ 53 - 1) * 2 ^ 971`. -/
noncomputable def DBL_MAX : ℝ := (2 ^ 53 - 1) * 2 ^ 971

/-- The stand-in for the `double` +infinity. The rounding `fl` has no largest
exponent, so that an operation whose `double` result is +infinity has a
result above `DBL_MAX` here; the quotient of a positive number by zero, which
the reals do not have, is this number. -/
noncomputable def DBL_INFINITY : ℝ := 2 ^ 1024

/-- The value an `int` holds after an operation whose exact result is `z`:
`z` reduced to the 32-bit two's complement range. -/
def wrapInt32 (z : Int) : Int := (z + 2 ^ 31) % 2 ^ 32 - 2 ^ 31

/-! ## Collision and scoring -/

/-- The function `checkCollision` of the source, with the global `gScore`
passed in and returned next to the result. Each `double` operation is rounded.
When a difference, a square or the sum of the squares overflows, the distance
is `+inf` and the comparison is false; when only `r1+r2` overflows to `+inf`
the comparison is true. `++gScore` wraps around at `INT_MAX`. -/
noncomputable def checkCollision (x1 y1 r1 x2 y2 r2 : ℝ) (gScore : Int) : Bool × Int :=
  let dx := fl (x1 - x2)
  let dy := fl (y1 - y2)
  let sx := fl (dx ^ 2)
  let sy := fl (dy ^ 2)
  let s := fl (sx + sy)
  let d := fl (Real.sqrt s)
  let r := fl (r1 + r2)
  if DBL_MAX < |dx| ∨ DBL_MAX < |dy| ∨ DBL_MAX < sx ∨ DBL_MAX < sy ∨ DBL_MAX < s then
    (false, gScore)
  else if DBL_MAX < r ∨ d < r then
    (true, wrapInt32 (gScore + 1))
  else
    (false, gScore)

/-! ## Bullet -/

/-- The data members of class `Bullet` (the texture pointer is left out: it
is only used for drawing). -/
@[ext]
structure Bullet where
  mPosX : ℝ
  mPosY : ℝ
  mVelX : ℝ
  mVelY : ℝ
  mAngle : ℝ

/-- The constructor `Bullet::Bullet(sPosX, sPosY, sAngle)`. -/
noncomputable def Bullet_Bullet (sPosX sPosY sAngle : ℝ) : Bullet where
  mPosX := sPosX
  mPosY := sPosY
  mVelX := Real.cos ((sAngle + 90) * PI / 180) * BULLET_VEL
  mVelY := Real.sin ((sAngle + 90) * PI / 180) * BULLET_VEL
  mAngle := sAngle

/-- The functions `cos` and `sin` of `<cmath>` on `double`s. How they round
is left to the C library, so the properties of the `double` velocity are
stated for every pair of functions that is `Cmath.accurate`. -/
structure Cmath where
  cos : ℝ → ℝ
  sin : ℝ → ℝ

/-- The results of `cos` and `sin` are within `2^-52` of the real cosine and
sine: twice the unit in the last place of a `double` in `[1/2, 1)`. -/
def Cmath.accurate (M : Cmath) : Prop :=
  (∀ t : ℝ, |M.cos t - Real.cos t| ≤ 1 / 2 ^ 52) ∧
  (∀ t : ℝ, |M.sin t - Real.sin t| ≤ 1 / 2 ^ 52)

/-- The C library whose `cos` and `sin` are correctly rounded. -/
noncomputable def Cmath.rounded : Cmath where
  cos := fun t => fl (Real.cos t)
  sin := fun t => fl (Real.sin t)

/-- The constructor `Bullet::Bullet(sPosX, sPosY, sAngle)` in `double`
arithmetic, over the C library `M`: the literal `PI` and every operation are
rounded; the `int` constants 90, 180 and `BULLET_VEL` convert exactly. -/
noncomputable def Bullet_Bullet_double (M : Cmath) (sPosX sPosY sAngle : ℝ) : Bullet where
  mPosX := sPosX
  mPosY := sPosY
  mVelX := fl (M.cos (fl (fl (fl (sAngle + 90) * fl PI) / 180)) * BULLET_VEL)
  mVelY := fl (M.sin (fl (fl (fl (sAngle + 90) * fl PI) / 180)) * BULLET_VEL)
  mAngle := sAngle

def Bullet.getPosX (b : Bullet) : ℝ := b.mPosX

def Bullet.getPosY (b : Bullet) : ℝ := b.mPosY

/-- The radius `BULLET_WIDTH/2`: an `int` division, converted to `double`. -/
def Bullet.getRad (_b : Bullet) : ℝ := ((BULLET_WIDTH.tdiv 2 : Int) : ℝ)

/-- The method `Bullet::move`: the returned flag, and the bullet after the
call (the position is updated also when the flag is false). -/
noncomputable def Bullet.move (b : Bullet) : Bool × Bullet :=
  let mPosX := b.mPosX + b.mVelX
  let mPosY := b.mPosY + b.mVelY
  let moved : Bullet := { b with mPosX := mPosX, mPosY := mPosY }
  if (mPosY + BULLET_HEIGHT < 0) ∨ (mPosY > SCREEN_HEIGHT) ∨
      (mPosX + BULLET_WIDTH < 0) ∨ (mPosX > PLAYFIELD_WIDTH) then
    (false, moved)
  else
    (true, moved)

/-- The bullet after `n` consecutive calls of `Bullet::move`. -/
noncomputable def Bullet.afterMoves : Nat → Bullet → Bullet
  | 0, b => b
  | n + 1, b => Bullet.afterMoves n (b.move).2

/-- The bullet of the exit scenario: at `(x, -25)`, moving down with velocity
`(0, 5)`. -/
noncomputable def fallingBullet (x : ℝ) : Bullet where
  mPosX := x
  mPosY := -25
  mVelX := 0
  mVelY := 5
  mAngle := 0

/-! ## Enemy -/

/-- What stops an operation from returning a result. -/
inductive Fault where
  /-- An `int` division by zero. -/
  | intDivByZero
  /-- An `int` remainder by zero. -/
  | intModByZero
  /-- The remainder of `INT_MIN` by -1, whose quotient does not fit an `int`. -/
  | intOverflow
  /-- The fuel given to a loop was used up before the loop ended. -/
  | outOfFuel
  deriving DecidableEq, Repr

/-- The data members of class `Enemy`. The path function of the source
writes through three pointers; here it maps the old `(xPos, yPos, angle)` and
the time to the new triple. The timer is left out: the value it returns is an
argument of `Enemy.move`. -/
structure Enemy where
  mPosX : ℝ
  mPosY : ℝ
  mOffsetX : ℝ
  mOffsetY : ℝ
  mAngle : ℝ
  mBullets : ℝ
  mBulletAngle : ℝ
  mBulletFrequency : Int
  mPath : ℝ → ℝ → ℝ → ℝ → ℝ × ℝ × ℝ

/-- The path function `pathing(xPos, yPos, angle, t)`. -/
noncomputable def pathing (_xPos _yPos angle t : ℝ) : ℝ × ℝ × ℝ :=
  (0, 0.1 * t, angle + 7)

/-- The constructor `Enemy::Enemy(bullets, bulletFrequency, sOffsetX, path)`.
It leaves `mPosX` and `mPosY` uninitialised: their values are the arguments
`uPosX` and `uPosY`. `360/mBullets` is a `double` division, rounded; it does
not trap when `mBullets` is 0, the quotient is then `DBL_INFINITY`.
`60/bulletFrequency` is an `int` division, a fault when `bulletFrequency`
is 0. -/
noncomputable def Enemy_Enemy (bullets bulletFrequency : Int) (sOffsetX : ℝ)
    (path : ℝ → ℝ → ℝ → ℝ → ℝ × ℝ × ℝ) (uPosX uPosY : ℝ) : Except Fault Enemy :=
  let mBullets : ℝ := (bullets : ℝ)
  if bulletFrequency = 0 then
    Except.error Fault.intDivByZero
  else
    Except.ok
      { mPosX := uPosX
        mPosY := uPosY
        mOffsetX := sOffsetX
        mOffsetY := ((-ENEMY_HEIGHT : Int) : ℝ)
        mAngle := 0
        mBullets := mBullets
        mBulletAngle := if mBullets = 0 then DBL_INFINITY else fl (360 / mBullets)
        mBulletFrequency := Int.tdiv 60 bulletFrequency
        mPath := path }

/-- The method `Enemy::move`; `ticks` is the value of `mTimer.getTicks()`. -/
noncomputable def Enemy.move (e : Enemy) (ticks : Nat) : Bool × Enemy :=
  let r := e.mPath e.mPosX e.mPosY e.mAngle (ticks : ℝ)
  let mPosX := r.1 + e.mOffsetX
  let mPosY := r.2.1 + e.mOffsetY
  let moved : Enemy := { e with mPosX := mPosX, mPosY := mPosY, mAngle := r.2.2 }
  if (mPosY + ENEMY_HEIGHT < 0) ∨ (mPosX + ENEMY_WIDTH < 0) ∨ (mPosX > PLAYFIELD_WIDTH) then
    (false, moved)
  else
    (true, moved)

/-- The `for` loop of `Enemy::shoot`, from the loop variable `i` on:
`for(double i = mAngle; i < mAngle+360; i += mBulletAngle)`, the sums being
rounded `double` sums. Each turn uses one unit of fuel. -/
noncomputable def Enemy.shootLoop (e : Enemy) : Nat → ℝ → List Bullet → Except Fault (List Bullet)
  | 0, _, _ => Except.error Fault.outOfFuel
  | fuel + 1, i, gBullets =>
    if i < fl (e.mAngle + 360) then
      Enemy.shootLoop e fuel (fl (i + e.mBulletAngle))
        (gBullets ++ [Bullet_Bullet e.mPosX e.mPosY i])
    else
      Except.ok gBullets

/-- The method `Enemy::shoot(frame)`, with the global `gBullets` passed in
and returned. -/
noncomputable def Enemy.shoot (e : Enemy) (fuel : Nat) (frame : Int) (gBullets : List Bullet) :
    Except Fault (List Bullet) :=
  if e.mBulletFrequency = 0 then
    Except.error Fault.intModByZero
  else if frame = -2147483648 ∧ e.mBulletFrequency = -1 then
    Except.error Fault.intOverflow
  else if Int.tmod frame e.mBulletFrequency = 0 then
    Enemy.shootLoop e fuel e.mAngle gBullets
  else
    Except.ok gBullets

/-- Constructing an enemy (with `pathing` as its path) and then calling
`Enemy::shoot(frame)` on it. -/
noncomputable def constructAndShoot (bullets bulletFrequency : Int) (sOffsetX uPosX uPosY : ℝ)
    (fuel : Nat) (frame : Int) (gBullets : List Bullet) : Except Fault (List Bullet) :=
  match Enemy_Enemy bullets bulletFrequency sOffsetX pathing uPosX uPosY with
  | Except.error err => Except.error err
  | Except.ok e => Enemy.shoot e fuel frame gBullets

/-- Calling `Enemy::shoot(f)` once for each frame counter `f` of a list, in
order. -/
noncomputable def Enemy.shootFrames (e : Enemy) (fuel : Nat) :
    List Int → List Bullet → Except Fault (List Bullet)
  | [], gBullets => Except.ok gBullets
  | f :: fs, gBullets =>
    match Enemy.shoot e fuel f gBullets with
    | Except.error err => Except.error err
    | Except.ok gBullets1 => Enemy.shootFrames e fuel fs gBullets1

/-- The fan of `n` bullets as the specification words it: all at the enemy's
position, the `j`-th with firing angle `mAngle + j * (360 / n)`. -/
noncomputable def fanSpec (e : Enemy) (n : Nat) : List Bullet :=
  (List.range n).map
    (fun (j : Nat) => Bullet_Bullet e.mPosX e.mPosY (e.mAngle + (j : ℝ) * (360 / (n : ℝ))))

/-- The frame counters 0, 1, ..., 59. -/
def firstSixtyFrames : List Int := (List.range 60).map Int.ofNat

/-- A path that climbs: `y = -0.1 t`, `x = 0`, angle unchanged. -/
noncomputable def upwardPath (_xPos _yPos angle t : ℝ) : ℝ × ℝ × ℝ :=
  (0, -0.1 * t, angle)

/-! ## Player -/

/-- The data members of class `Player`. -/
structure Player where
  mPosX : ℝ
  mPosY : ℝ

/-- The constructor `Player::Player()`; both quotients are `int` divisions. -/
noncomputable def Player_Player : Player where
  mPosX := ((Int.tdiv (PLAYFIELD_WIDTH - PLAYER_WIDTH) 2 : Int) : ℝ)
  mPosY := ((Int.tdiv (SCREEN_HEIGHT - PLAYER_HEIGHT) 2 : Int) : ℝ)

def Player.getPosX (p : Player) : ℝ := p.mPosX

def Player.getPosY (p : Player) : ℝ := p.mPosY

/-- The radius `PLAYER_WIDTH/2`: an `int` division, converted to `double`. -/
def Player.getRad (_p : Player) : ℝ := ((PLAYER_WIDTH.tdiv 2 : Int) : ℝ)

/-- The value of the event type `SDL_MOUSEMOTION` in the SDL2 headers. -/
def SDL_MOUSEMOTION : Nat := 0x400

/-- What `Player::move` reads of an `SDL_Event`: its type, and the
coordinates `motion.x` and `motion.y`. -/
structure SDL_Event where
  type : Nat
  motionX : Int
  motionY : Int

/-- The method `Player::move(e)`. The calls of `SDL_ShowCursor` only show or
hide the pointer and are left out. -/
noncomputable def Player.move (p : Player) (e : SDL_Event) : Player :=
  if e.type = SDL_MOUSEMOTION then
    let p1 : Player :=
      if e.motionX < 0 then
        { p with mPosX := 0 }
      else if e.motionX + PLAYER_WIDTH > PLAYFIELD_WIDTH then
        { p with mPosX := ((PLAYFIELD_WIDTH - PLAYER_WIDTH : Int) : ℝ) }
      else
        { mPosX := (e.motionX : ℝ), mPosY := (e.motionY : ℝ) }
    if e.motionY < 0 then
      { p1 with mPosY := 0 }
    else if e.motionY + PLAYER_HEIGHT > SCREEN_HEIGHT then
      { p1 with mPosY := ((SCREEN_HEIGHT - PLAYER_HEIGHT : Int) : ℝ) }
    else
      p1
  else
    p

/-- The clamped region of the player. -/
def Player.inBounds (p : Player) : Prop :=
  0 ≤ p.mPosX ∧ p.mPosX ≤ ((PLAYFIELD_WIDTH - PLAYER_WIDTH : Int) : ℝ) ∧
  0 ≤ p.mPosY ∧ p.mPosY ≤ ((SCREEN_HEIGHT - PLAYER_HEIGHT : Int) : ℝ)

/-! ## The bullet pass of the main loop -/

/-- The bullet loop of `main`, from index `i` on:
`for(int i = 0; i < gBullets.size(); ++i)`, where the body moves `gBullets[i]`
in place and erases it when `!move() || checkCollision(...)`. The globals
`gBullets` and `gScore` are passed in and returned. Drawing is left out. -/
noncomputable def bulletLoop (player : Player) (i : Nat) (gBullets : List Bullet)
    (gScore : Int) : List Bullet × Int :=
  if h : i < gBullets.length then
    let r := (gBullets.get ⟨i, h⟩).move
    let moved := gBullets.set i r.2
    if r.1 = false then
      bulletLoop player (i + 1) (moved.eraseIdx i) gScore
    else
      let c := checkCollision player.getPosX player.getPosY player.getRad
        r.2.getPosX r.2.getPosY r.2.getRad gScore
      if c.1 = true then
        bulletLoop player (i + 1) (moved.eraseIdx i) c.2
      else
        bulletLoop player (i + 1) moved c.2
  else
    (gBullets, gScore)
termination_by gBullets.length - i
decreasing_by
  all_goals simp_wf
  all_goals first
    | omega
    | (simp only [moved, List.length_eraseIdx, List.length_set]
       split_ifs
       all_goals omega)

/-- One frame's bullet pass: the loop from index 0. -/
noncomputable def bulletPass (player : Player) (gBullets : List Bullet) (gScore : Int) :
    List Bullet × Int :=
  bulletLoop player 0 gBullets gScore

/-- The bullet pass as the specification words it: advance every bullet
exactly once, then keep exactly those that are still in bounds and do not
collide with the player. -/
noncomputable def bulletPassSpec (player : Player) (gBullets : List Bullet) : List Bullet :=
  ((gBullets.map (fun b => b.move)).filter
    (fun r => r.1 && !(checkCollision player.getPosX player.getPosY player.getRad
      r.2.getPosX r.2.getPosY r.2.getRad 0).1)).map (fun r => r.2)

/-- A bullet created at `(x, 480)` with firing angle 0: it moves down, and its
next move takes it below the screen. -/
noncomputable def expiringBullet (x : ℝ) : Bullet :=
  Bullet_Bullet x 480 0

/-- The bullet loop with both operands of `!move() || checkCollision(...)`
evaluated on every turn, as the claim about the short-circuit words it: the
collision test, and its effect on the score, also happen for a bullet whose
move returned false. -/
noncomputable def bulletLoopBoth (player : Player) (i : Nat) (gBullets : List Bullet)
    (gScore : Int) : List Bullet × Int :=
  if h : i < gBullets.length then
    let r := (gBullets.get ⟨i, h⟩).move
    let moved := gBullets.set i r.2
    let c := checkCollision player.getPosX player.getPosY player.getRad
      r.2.getPosX r.2.getPosY r.2.getRad gScore
    if r.1 = false ∨ c.1 = true then
      bulletLoopBoth player (i + 1) (moved.eraseIdx i) c.2
    else
      bulletLoopBoth player (i + 1) moved c.2
  else
    (gBullets, gScore)
termination_by gBullets.length - i
decreasing_by
  all_goals simp_wf
  all_goals first
    | omega
    | (simp only [moved, List.length_eraseIdx, List.length_set]
       split_ifs
       all_goals omega)


/-! ## Theorems -/
/-! ### Rounding to the nearest double -/

theorem roundEven_cases (q : ℝ) : roundEven q = ⌊q⌋ ∨ roundEven q = ⌊q⌋ + 1 := by
  unfold roundEven
  split_ifs <;> simp

theorem roundEven_sub_le (q : ℝ) : |((roundEven q : ℤ) : ℝ) - q| ≤ 1 / 2 := by
  have h1 := Int.floor_le q
  have h2 := Int.lt_floor_add_one q
  unfold roundEven
  split_ifs with ha hb hc
  · rw [abs_le]; constructor <;> linarith
  · rw [abs_le]; push_cast; constructor <;> linarith
  · rw [abs_le]; constructor <;> linarith
  · rw [abs_le]; push_cast; constructor <;> linarith

theorem roundEven_of_close (q : ℝ) (m : ℤ) (h : |q - m| < 1 / 2) : roundEven q = m := by
  rw [abs_lt] at h
  obtain ⟨h1, h2⟩ := h
  by_cases hm : (m : ℝ) ≤ q
  · have hf : ⌊q⌋ = m := by
      rw [Int.floor_eq_iff]; constructor <;> linarith
    unfold roundEven
    rw [hf, if_pos (by linarith)]
  · have hf : ⌊q⌋ = m - 1 := by
      rw [Int.floor_eq_iff]; push_cast; constructor <;> linarith
    unfold roundEven
    rw [hf, if_neg (by push_cast; linarith), if_pos (by push_cast; linarith)]
    ring

theorem roundEven_intCast (n : ℤ) : roundEven (n : ℝ) = n :=
  roundEven_of_close _ n (by simp)

theorem roundEven_tie_even (m : ℤ) (hm : Even m) : roundEven ((m : ℝ) + 1 / 2) = m := by
  have hf : ⌊(m : ℝ) + 1 / 2⌋ = m := by
    rw [Int.floor_eq_iff]; constructor <;> linarith
  unfold roundEven
  rw [hf, if_neg (by linarith), if_neg (by linarith), if_pos hm]

theorem roundEven_tie_odd (m : ℤ) (hm : ¬ Even m) : roundEven ((m : ℝ) + 1 / 2) = m + 1 := by
  have hf : ⌊(m : ℝ) + 1 / 2⌋ = m := by
    rw [Int.floor_eq_iff]; constructor <;> linarith
  unfold roundEven
  rw [hf, if_neg (by linarith), if_neg (by linarith), if_neg hm]

theorem roundEven_mono {p q : ℝ} (h : p ≤ q) : roundEven p ≤ roundEven q := by
  have hfl : ⌊p⌋ ≤ ⌊q⌋ := Int.floor_mono h
  rcases lt_or_eq_of_le hfl with hlt | heq
  · have h1 : roundEven p ≤ ⌊p⌋ + 1 := by
      rcases roundEven_cases p with h | h <;> omega
    have h2 : ⌊q⌋ ≤ roundEven q := by
      rcases roundEven_cases q with h | h <;> omega
    omega
  · unfold roundEven
    rw [heq]
    split_ifs <;> first | omega | (exfalso; linarith)

theorem ulp_pos (x : ℝ) : 0 < ulp x := zpow_pos (by norm_num) _

theorem ulp_neg (x : ℝ) : ulp (-x) = ulp x := by simp [ulp, binade]

theorem log_two_eq {x : ℝ} {e : ℤ} (hx : 0 < x) (h1 : (2 : ℝ) ^ e ≤ x)
    (h2 : x < (2 : ℝ) ^ (e + 1)) : Int.log 2 x = e := by
  have ha : e ≤ Int.log 2 x :=
    (Int.zpow_le_iff_le_log (by norm_num) hx).mp (by exact_mod_cast h1)
  have hb : Int.log 2 x < e + 1 :=
    (Int.lt_zpow_iff_log_lt (by norm_num) hx).mp (by exact_mod_cast h2)
  omega

theorem ulp_eq {x : ℝ} {e : ℤ} (he : -1022 ≤ e) (h1 : (2 : ℝ) ^ e ≤ |x|)
    (h2 : |x| < (2 : ℝ) ^ (e + 1)) : ulp x = (2 : ℝ) ^ (e - 52) := by
  have hx : 0 < |x| := lt_of_lt_of_le (zpow_pos (by norm_num) _) h1
  rw [ulp, binade, log_two_eq hx h1 h2, max_eq_left he]

theorem ulp_ge (x : ℝ) : (2 : ℝ) ^ (-1074 : ℤ) ≤ ulp x := by
  rw [ulp]
  apply zpow_le_zpow_right₀ (by norm_num)
  have : (-1022 : ℤ) ≤ binade x := le_max_right _ _
  omega

theorem binade_upper (x : ℝ) : |x| < (2 : ℝ) ^ (53 : ℤ) * ulp x := by
  have h := Int.lt_zpow_succ_log_self (b := 2) (by norm_num) |x|
  have h2 : (2 : ℝ) ^ (53 : ℤ) * ulp x = (2 : ℝ) ^ (binade x + 1) := by
    rw [ulp, ← zpow_add₀ (by norm_num)]
    congr 1
    ring
  rw [h2]
  have h3 : (2 : ℝ) ^ (Int.log 2 |x| + 1) ≤ (2 : ℝ) ^ (binade x + 1) := by
    apply zpow_le_zpow_right₀ (by norm_num)
    have : Int.log 2 |x| ≤ binade x := le_max_left _ _
    omega
  have h4 : |x| < (2 : ℝ) ^ (Int.log 2 |x| + 1) := by exact_mod_cast h
  linarith

theorem binade_lower {x : ℝ} (hx : (2 : ℝ) ^ (-1022 : ℤ) ≤ |x|) :
    (2 : ℝ) ^ (52 : ℤ) * ulp x ≤ |x| := by
  have hpos : 0 < |x| := lt_of_lt_of_le (zpow_pos (by norm_num) _) hx
  have h := Int.zpow_log_le_self (b := 2) (r := |x|) (by norm_num) hpos
  have hlog : (-1022 : ℤ) ≤ Int.log 2 |x| :=
    (Int.zpow_le_iff_le_log (by norm_num) hpos).mp (by exact_mod_cast hx)
  have h2 : (2 : ℝ) ^ (52 : ℤ) * ulp x = (2 : ℝ) ^ Int.log 2 |x| := by
    rw [ulp, binade, max_eq_left hlog, ← zpow_add₀ (by norm_num)]
    congr 1
    ring
  rw [h2]
  exact_mod_cast h

theorem fl_zero : fl 0 = 0 := by simp [fl]

theorem fl_neg (x : ℝ) : fl (-x) = -fl x := by
  rcases lt_trichotomy x 0 with h | h | h
  · have h1 : ¬ (x = 0) := ne_of_lt h
    have h2 : ¬ (0 < x) := not_lt.mpr h.le
    have h3 : ¬ (-x = 0) := by simpa using h1
    simp only [fl, h1, h2, h3, if_false, neg_pos.mpr h, if_true, ulp_neg, neg_neg]
  · subst h; simp [fl]
  · have h1 : ¬ (x = 0) := ne_of_gt h
    have h3 : ¬ (-x = 0) := by simpa using h1
    have h4 : ¬ (0 < -x) := by simpa using h.le
    simp only [fl, h1, h3, h4, h, if_false, if_true, ulp_neg, neg_neg]

theorem fl_of_pos {x : ℝ} (hx : 0 < x) : fl x = (roundEven (x / ulp x) : ℝ) * ulp x := by
  simp [fl, ne_of_gt hx, hx]

/-- Evaluation of `fl` at a positive real whose exponent and rounded
significand are known. -/
theorem fl_eval {x : ℝ} {e m : ℤ} (he : -1022 ≤ e) (h1 : (2 : ℝ) ^ e ≤ x)
    (h2 : x < (2 : ℝ) ^ (e + 1))
    (hm : roundEven (x / (2 : ℝ) ^ (e - 52)) = m) : fl x = (m : ℝ) * (2 : ℝ) ^ (e - 52) := by
  have hx : 0 < x := lt_of_lt_of_le (zpow_pos (by norm_num) _) h1
  have hu : ulp x = (2 : ℝ) ^ (e - 52) := by
    apply ulp_eq he <;> rwa [abs_of_pos hx]
  rw [fl_of_pos hx, hu, hm]

theorem fl_abs_err (x : ℝ) : |fl x - x| ≤ ulp x / 2 := by
  have key : ∀ y : ℝ, 0 < y → |fl y - y| ≤ ulp y / 2 := by
    intro y hy
    have hu := ulp_pos y
    have h := roundEven_sub_le (y / ulp y)
    rw [fl_of_pos hy]
    have e1 : (roundEven (y / ulp y) : ℝ) * ulp y - y
        = ((roundEven (y / ulp y) : ℝ) - y / ulp y) * ulp y := by
      field_simp
    rw [e1, abs_mul, abs_of_pos hu]
    calc |((roundEven (y / ulp y) : ℤ) : ℝ) - y / ulp y| * ulp y
        ≤ 1 / 2 * ulp y := mul_le_mul_of_nonneg_right h hu.le
      _ = ulp y / 2 := by ring
  rcases lt_trichotomy x 0 with h | h | h
  · have := key (-x) (neg_pos.mpr h)
    rw [fl_neg, ulp_neg] at this
    rwa [show -fl x - -x = -(fl x - x) by ring, abs_neg] at this
  · subst h; simp [fl_zero]; exact (half_pos (ulp_pos 0)).le
  · exact key x h

theorem fl_rel_err {x : ℝ} (hx : (2 : ℝ) ^ (-1022 : ℤ) ≤ |x|) : |fl x - x| ≤ |x| / 2 ^ 53 := by
  have h1 := fl_abs_err x
  have h2 := binade_lower hx
  have h3 : ulp x / 2 ≤ |x| / 2 ^ 53 := by
    rw [div_le_div_iff₀ (by norm_num) (by norm_num)]
    have : (2 : ℝ) ^ (52 : ℤ) = 2 ^ 52 := by norm_num
    rw [this] at h2
    nlinarith
  linarith

/-- The rounding error at a real of size at most `M`, for `M` in the normal range. -/
theorem fl_err_le {x M : ℝ} (hx : |x| ≤ M) (hM : (2 : ℝ) ^ (-1022 : ℤ) ≤ M) :
    |fl x - x| ≤ M / 2 ^ 53 := by
  by_cases h : (2 : ℝ) ^ (-1022 : ℤ) ≤ |x|
  · have := fl_rel_err h
    have h2 : |x| / 2 ^ 53 ≤ M / 2 ^ 53 := div_le_div_of_nonneg_right hx (by positivity)
    linarith
  · push_neg at h
    by_cases hx0 : x = 0
    · subst hx0
      simp only [fl_zero, sub_zero, abs_zero]
      exact div_nonneg (le_trans (zpow_pos (by norm_num) _).le hM) (by positivity)
    have h1 := fl_abs_err x
    have hb : binade x = -1022 := by
      rw [binade]
      apply max_eq_right
      have hpos : 0 < |x| := abs_pos.mpr hx0
      have hlt : Int.log 2 |x| < (-1022 : ℤ) :=
        (Int.lt_zpow_iff_log_lt (b := 2) (by norm_num) hpos).mp (by exact_mod_cast h)
      exact hlt.le
    have hu : ulp x = (2 : ℝ) ^ (-1074 : ℤ) := by rw [ulp, hb]; norm_num
    have h3 : ulp x / 2 ≤ M / 2 ^ 53 := by
      rw [hu, div_le_div_iff₀ (by norm_num) (by norm_num)]
      have e1 : (2 : ℝ) ^ (-1074 : ℤ) * 2 ^ 53 = 2 * (2 : ℝ) ^ (-1022 : ℤ) := by
        rw [show (2 : ℝ) ^ (53 : ℕ) = (2 : ℝ) ^ (53 : ℤ) by norm_num,
          ← zpow_add₀ (by norm_num)]
        rw [show (-1074 : ℤ) + 53 = 1 + -1022 by norm_num, zpow_add₀ (by norm_num)]
        norm_num
      rw [e1]
      linarith
    linarith

theorem fl_ge_binade {x : ℝ} (hx : (2 : ℝ) ^ (-1022 : ℤ) ≤ x) :
    (2 : ℝ) ^ (52 : ℤ) * ulp x ≤ fl x := by
  have hx0 : 0 < x := lt_of_lt_of_le (zpow_pos (by norm_num) _) hx
  have hu := ulp_pos x
  have h := binade_lower (x := x) (by rwa [abs_of_pos hx0])
  rw [abs_of_pos hx0] at h
  have e2 : (((2 : ℤ) ^ 52 : ℤ) : ℝ) = (2 : ℝ) ^ (52 : ℤ) := by norm_num
  have hq : ((2 ^ 52 : ℤ) : ℝ) ≤ x / ulp x := by
    rw [le_div_iff₀ hu, e2]; exact h
  have hr := roundEven_mono hq
  rw [roundEven_intCast] at hr
  rw [fl_of_pos hx0]
  have hr2 : ((2 : ℝ) ^ (52 : ℤ)) ≤ (roundEven (x / ulp x) : ℝ) := by
    have : (((2 : ℤ) ^ 52 : ℤ) : ℝ) ≤ ((roundEven (x / ulp x) : ℤ) : ℝ) := by exact_mod_cast hr
    rwa [e2] at this
  exact mul_le_mul_of_nonneg_right hr2 hu.le

theorem fl_le_binade {x : ℝ} (hx : 0 < x) : fl x ≤ (2 : ℝ) ^ (53 : ℤ) * ulp x := by
  have hu := ulp_pos x
  have h := binade_upper x
  rw [abs_of_pos hx] at h
  have e2 : (((2 : ℤ) ^ 53 : ℤ) : ℝ) = (2 : ℝ) ^ (53 : ℤ) := by norm_num
  have hq : x / ulp x ≤ ((2 ^ 53 : ℤ) : ℝ) := by
    rw [div_le_iff₀ hu, e2]; exact h.le
  have hr := roundEven_mono hq
  rw [roundEven_intCast] at hr
  rw [fl_of_pos hx]
  have hr2 : (roundEven (x / ulp x) : ℝ) ≤ (2 : ℝ) ^ (53 : ℤ) := by
    have : ((roundEven (x / ulp x) : ℤ) : ℝ) ≤ (((2 : ℤ) ^ 53 : ℤ) : ℝ) := by exact_mod_cast hr
    rwa [e2] at this
  exact mul_le_mul_of_nonneg_right hr2 hu.le

theorem fl_nonneg {x : ℝ} (hx : 0 ≤ x) : 0 ≤ fl x := by
  rcases eq_or_lt_of_le hx with h | h
  · rw [← h, fl_zero]
  · rw [fl_of_pos h]
    have hq : ((0 : ℤ) : ℝ) ≤ x / ulp x := by
      simpa using div_nonneg hx (ulp_pos x).le
    have hr := roundEven_mono hq
    rw [roundEven_intCast] at hr
    exact mul_nonneg (by exact_mod_cast hr) (ulp_pos x).le

theorem fl_nonpos {x : ℝ} (hx : x ≤ 0) : fl x ≤ 0 := by
  have h := fl_nonneg (neg_nonneg.mpr hx)
  rw [fl_neg] at h
  linarith

theorem fl_mono_pos {x y : ℝ} (hx : 0 < x) (hxy : x ≤ y) : fl x ≤ fl y := by
  have hy : 0 < y := lt_of_lt_of_le hx hxy
  have hlog : Int.log 2 |x| ≤ Int.log 2 |y| := by
    rw [abs_of_pos hx, abs_of_pos hy]
    exact Int.log_mono_right hx hxy
  have hb : binade x ≤ binade y := max_le_max hlog le_rfl
  rcases eq_or_lt_of_le hb with heq | hlt
  · have hu : ulp x = ulp y := by rw [ulp, ulp, heq]
    rw [fl_of_pos hx, fl_of_pos hy, hu]
    have hq : x / ulp y ≤ y / ulp y := div_le_div_of_nonneg_right hxy (ulp_pos y).le
    have hr := roundEven_mono hq
    exact mul_le_mul_of_nonneg_right (by exact_mod_cast hr) (ulp_pos y).le
  · have h1 := fl_le_binade hx
    have hynorm : (2 : ℝ) ^ (-1022 : ℤ) ≤ y := by
      have hlogy : (-1022 : ℤ) ≤ Int.log 2 |y| := by
        have h1022 : (-1022 : ℤ) ≤ binade x := le_max_right _ _
        have : binade y = Int.log 2 |y| := by
          rw [binade]
          apply max_eq_left
          by_contra hcon
          push_neg at hcon
          have : binade y = -1022 := by rw [binade]; exact max_eq_right hcon.le
          omega
        omega
      have := (Int.zpow_le_iff_le_log (b := 2) (by norm_num) (abs_pos.mpr (ne_of_gt hy))).mpr hlogy
      rw [abs_of_pos hy] at this
      exact_mod_cast this
    have h2 := fl_ge_binade hynorm
    have h3 : (2 : ℝ) ^ (53 : ℤ) * ulp x ≤ (2 : ℝ) ^ (52 : ℤ) * ulp y := by
      rw [ulp, ulp, ← zpow_add₀ (by norm_num), ← zpow_add₀ (by norm_num)]
      apply zpow_le_zpow_right₀ (by norm_num)
      omega
    linarith

theorem fl_mono {x y : ℝ} (hxy : x ≤ y) : fl x ≤ fl y := by
  rcases lt_trichotomy 0 x with hx | hx | hx
  · exact fl_mono_pos hx hxy
  · rw [← hx, fl_zero]; exact fl_nonneg (hx ▸ hxy)
  · rcases le_or_lt 0 y with hy | hy
    · exact le_trans (fl_nonpos hx.le) (fl_nonneg hy)
    · have h := fl_mono_pos (neg_pos.mpr hy) (neg_le_neg hxy)
      rw [fl_neg, fl_neg] at h
      linarith

theorem fl_exact_pos (m k : ℤ) (hm0 : 0 < m) (hm : m < 2 ^ 53) (hk : -1074 ≤ k) :
    fl ((m : ℝ) * (2 : ℝ) ^ k) = (m : ℝ) * (2 : ℝ) ^ k := by
  have h2k : (0 : ℝ) < (2 : ℝ) ^ k := zpow_pos (by norm_num) _
  have hmR : (0 : ℝ) < m := by exact_mod_cast hm0
  have hx : 0 < (m : ℝ) * (2 : ℝ) ^ k := mul_pos hmR h2k
  have hu := ulp_pos ((m : ℝ) * (2 : ℝ) ^ k)
  -- the exponent of the binade is at most k + 52
  have hlt : (2 : ℝ) ^ (Int.log 2 |(m : ℝ) * (2 : ℝ) ^ k|) < (2 : ℝ) ^ (53 + k) := by
    have h1 : (2 : ℝ) ^ (Int.log 2 |(m : ℝ) * (2 : ℝ) ^ k|) ≤ (m : ℝ) * (2 : ℝ) ^ k := by
      have := Int.zpow_log_le_self (b := 2) (r := |(m : ℝ) * (2 : ℝ) ^ k|) (by norm_num)
        (abs_pos.mpr (ne_of_gt hx))
      rw [abs_of_pos hx] at this ⊢
      exact_mod_cast this
    have h2 : (m : ℝ) * (2 : ℝ) ^ k < (2 : ℝ) ^ (53 + k) := by
      rw [zpow_add₀ (by norm_num)]
      have h53 : (m : ℝ) < ((2 ^ 53 : ℤ) : ℝ) := by exact_mod_cast hm
      have e53 : (((2 : ℤ) ^ 53 : ℤ) : ℝ) = (2 : ℝ) ^ (53 : ℤ) := by norm_num
      rw [e53] at h53
      exact mul_lt_mul_of_pos_right h53 h2k
    linarith
  have hexp : Int.log 2 |(m : ℝ) * (2 : ℝ) ^ k| < 53 + k :=
    (zpow_lt_zpow_iff_right₀ (by norm_num : (1 : ℝ) < 2)).mp hlt
  have hbin : binade ((m : ℝ) * (2 : ℝ) ^ k) ≤ 52 + k := by
    rw [binade]
    exact max_le (by omega) (by omega)
  obtain ⟨j, hj⟩ := Int.eq_ofNat_of_zero_le
    (show 0 ≤ k - (binade ((m : ℝ) * (2 : ℝ) ^ k) - 52) by omega)
  have hq : (m : ℝ) * (2 : ℝ) ^ k / ulp ((m : ℝ) * (2 : ℝ) ^ k) = ((m * 2 ^ j : ℤ) : ℝ) := by
    rw [ulp, mul_div_assoc, ← zpow_sub₀ (by norm_num), hj]
    push_cast
    rw [zpow_natCast]
  rw [fl_of_pos hx, hq, roundEven_intCast, ← hq]
  field_simp

/-- A value `m * 2 ^ k` with `|m| < 2 ^ 53` and `k ≥ -1074` is a `double`:
rounding leaves it unchanged. -/
theorem fl_exact (m k : ℤ) (hm : |m| < 2 ^ 53) (hk : -1074 ≤ k) :
    fl ((m : ℝ) * (2 : ℝ) ^ k) = (m : ℝ) * (2 : ℝ) ^ k := by
  rw [abs_lt] at hm
  rcases lt_trichotomy m 0 with h | h | h
  · have := fl_exact_pos (-m) k (by omega) (by omega) hk
    push_cast at this
    rw [neg_mul, fl_neg] at this
    linarith
  · subst h; simp [fl_zero]
  · exact fl_exact_pos m k h (by omega) hk

theorem fl_intCast (n : ℤ) (hn : |n| < 2 ^ 53) : fl (n : ℝ) = n := by
  have := fl_exact n 0 hn (by norm_num)
  simpa using this

theorem fl_exact_of {x : ℝ} (m k : ℤ) (hm : |m| < 2 ^ 53) (hk : -1074 ≤ k)
    (hx : x = (m : ℝ) * (2 : ℝ) ^ k) : fl x = x := by
  rw [hx]
  exact fl_exact m k hm hk

/-- Evaluation of `fl` at a square root, from the squares of the two midpoints
next to the rounded value. -/
theorem fl_sqrt_eval {S : ℝ} {e m : ℤ} (he : -1022 ≤ e) (hm1 : 2 ^ 52 < m) (hm2 : m < 2 ^ 53)
    (hlow : (((m : ℝ) - 1 / 2) * (2 : ℝ) ^ (e - 52)) ^ 2 < S)
    (hhigh : S < (((m : ℝ) + 1 / 2) * (2 : ℝ) ^ (e - 52)) ^ 2) :
    fl (Real.sqrt S) = (m : ℝ) * (2 : ℝ) ^ (e - 52) := by
  have hu : (0 : ℝ) < (2 : ℝ) ^ (e - 52) := zpow_pos (by norm_num) _
  have hmR1 : ((2 : ℝ) ^ (52 : ℤ)) + 1 ≤ (m : ℝ) := by
    have : ((2 ^ 52 + 1 : ℤ) : ℝ) ≤ (m : ℝ) := by exact_mod_cast (show 2 ^ 52 + 1 ≤ m by omega)
    have e2 : ((2 ^ 52 + 1 : ℤ) : ℝ) = (2 : ℝ) ^ (52 : ℤ) + 1 := by norm_num
    rwa [e2] at this
  have hmR2 : (m : ℝ) ≤ ((2 : ℝ) ^ (53 : ℤ)) - 1 := by
    have : (m : ℝ) ≤ ((2 ^ 53 - 1 : ℤ) : ℝ) := by exact_mod_cast (show m ≤ 2 ^ 53 - 1 by omega)
    have e2 : ((2 ^ 53 - 1 : ℤ) : ℝ) = (2 : ℝ) ^ (53 : ℤ) - 1 := by norm_num
    rwa [e2] at this
  have hpos : (0 : ℝ) ≤ ((m : ℝ) - 1 / 2) * (2 : ℝ) ^ (e - 52) := by
    apply mul_nonneg _ hu.le
    have : (0 : ℝ) < (2 : ℝ) ^ (52 : ℤ) := by positivity
    linarith
  have hpos2 : (0 : ℝ) < ((m : ℝ) + 1 / 2) * (2 : ℝ) ^ (e - 52) := by
    apply mul_pos _ hu
    have : (0 : ℝ) < (2 : ℝ) ^ (52 : ℤ) := by positivity
    linarith
  have h1 : ((m : ℝ) - 1 / 2) * (2 : ℝ) ^ (e - 52) < Real.sqrt S :=
    Real.lt_sqrt_of_sq_lt hlow
  have h2 : Real.sqrt S < ((m : ℝ) + 1 / 2) * (2 : ℝ) ^ (e - 52) :=
    (Real.sqrt_lt' hpos2).mpr hhigh
  have e52 : (2 : ℝ) ^ e = (2 : ℝ) ^ (52 : ℤ) * (2 : ℝ) ^ (e - 52) := by
    rw [← zpow_add₀ (by norm_num)]; congr 1; ring
  have e53 : (2 : ℝ) ^ (e + 1) = (2 : ℝ) ^ (53 : ℤ) * (2 : ℝ) ^ (e - 52) := by
    rw [← zpow_add₀ (by norm_num)]; congr 1; ring
  apply fl_eval he
  · rw [e52]
    have : (2 : ℝ) ^ (52 : ℤ) * (2 : ℝ) ^ (e - 52) ≤ ((m : ℝ) - 1 / 2) * (2 : ℝ) ^ (e - 52) :=
      mul_le_mul_of_nonneg_right (by linarith) hu.le
    linarith
  · rw [e53]
    have : ((m : ℝ) + 1 / 2) * (2 : ℝ) ^ (e - 52) ≤ (2 : ℝ) ^ (53 : ℤ) * (2 : ℝ) ^ (e - 52) :=
      mul_le_mul_of_nonneg_right (by linarith) hu.le
    linarith
  · apply roundEven_of_close
    rw [abs_lt]
    constructor
    · rw [lt_sub_iff_add_lt, lt_div_iff₀ hu]
      linarith
    · rw [sub_lt_iff_lt_add, div_lt_iff₀ hu]
      linarith

/-! ### Collision test -/

theorem fl_upper {x : ℝ} (hx : 0 ≤ x) : fl x ≤ x * (1 + 1 / 2 ^ 53) + 1 / 2 ^ 1075 := by
  have hM : (2 : ℝ) ^ (-1022 : ℤ) ≤ x + (2 : ℝ) ^ (-1022 : ℤ) := by linarith
  have h := fl_err_le (x := x) (M := x + (2 : ℝ) ^ (-1022 : ℤ))
    (by rw [abs_of_nonneg hx]; linarith [zpow_pos (show (0 : ℝ) < 2 by norm_num) (-1022)]) hM
  rw [abs_le] at h
  have e : (x + (2 : ℝ) ^ (-1022 : ℤ)) / 2 ^ 53 = x * (1 / 2 ^ 53) + 1 / 2 ^ 1075 := by
    rw [show (2 : ℝ) ^ (-1022 : ℤ) = 1 / 2 ^ 1022 by norm_num, add_div, div_div,
      ← pow_add]
    ring
  rw [e] at h
  linarith [h.2]

theorem fl_lower {x : ℝ} (hx : 0 ≤ x) : x * (1 - 1 / 2 ^ 53) - 1 / 2 ^ 1075 ≤ fl x := by
  have hM : (2 : ℝ) ^ (-1022 : ℤ) ≤ x + (2 : ℝ) ^ (-1022 : ℤ) := by linarith
  have h := fl_err_le (x := x) (M := x + (2 : ℝ) ^ (-1022 : ℤ))
    (by rw [abs_of_nonneg hx]; linarith [zpow_pos (show (0 : ℝ) < 2 by norm_num) (-1022)]) hM
  rw [abs_le] at h
  have e : (x + (2 : ℝ) ^ (-1022 : ℤ)) / 2 ^ 53 = x * (1 / 2 ^ 53) + 1 / 2 ^ 1075 := by
    rw [show (2 : ℝ) ^ (-1022 : ℤ) = 1 / 2 ^ 1022 by norm_num, add_div, div_div,
      ← pow_add]
    ring
  rw [e] at h
  linarith [h.1]

theorem abs_fl (x : ℝ) : |fl x| = fl |x| := by
  rcases le_or_lt 0 x with h | h
  · rw [abs_of_nonneg h, abs_of_nonneg (fl_nonneg h)]
  · rw [abs_of_neg h, fl_neg, abs_of_nonpos (fl_nonpos h.le)]

theorem fl_two_pow (k : ℤ) (hk : -1074 ≤ k) : fl ((2 : ℝ) ^ k) = (2 : ℝ) ^ k := by
  have := fl_exact 1 k (by norm_num) hk
  simpa using this

/-- The value of `checkCollision` once the rounded intermediate results are known. -/
theorem checkCollision_eval {x1 y1 r1 x2 y2 r2 dx dy sx sy s d r : ℝ} (gScore : Int)
    (hdx : fl (x1 - x2) = dx) (hdy : fl (y1 - y2) = dy) (hsx : fl (dx ^ 2) = sx)
    (hsy : fl (dy ^ 2) = sy) (hs : fl (sx + sy) = s) (hd : fl (Real.sqrt s) = d)
    (hr : fl (r1 + r2) = r) :
    checkCollision x1 y1 r1 x2 y2 r2 gScore =
      if DBL_MAX < |dx| ∨ DBL_MAX < |dy| ∨ DBL_MAX < sx ∨ DBL_MAX < sy ∨ DBL_MAX < s then
        (false, gScore)
      else if DBL_MAX < r ∨ d < r then (true, wrapInt32 (gScore + 1))
      else (false, gScore) := by
  subst hdx hdy hsx hsy hs hd hr
  rfl

theorem checkCollision_snd (x1 y1 r1 x2 y2 r2 : ℝ) (gScore : Int) :
    ((checkCollision x1 y1 r1 x2 y2 r2 gScore).1 = true →
      (checkCollision x1 y1 r1 x2 y2 r2 gScore).2 = wrapInt32 (gScore + 1)) ∧
    ((checkCollision x1 y1 r1 x2 y2 r2 gScore).1 = false →
      (checkCollision x1 y1 r1 x2 y2 r2 gScore).2 = gScore) := by
  rw [checkCollision_eval gScore rfl rfl rfl rfl rfl rfl rfl]
  split_ifs <;> simp

theorem DBL_MAX_ge : (2 : ℝ) ^ 1023 ≤ DBL_MAX := by
  unfold DBL_MAX
  norm_num

/-- No operation of the distance computation overflows when both coordinate
differences are at most `2 ^ 500` in size. -/
theorem dist_no_overflow {p q : ℝ} (hp : |p| ≤ 2 ^ 500) (hq : |q| ≤ 2 ^ 500) :
    ¬ (DBL_MAX < |fl p| ∨ DBL_MAX < |fl q| ∨ DBL_MAX < fl (fl p ^ 2) ∨
      DBL_MAX < fl (fl q ^ 2) ∨ DBL_MAX < fl (fl (fl p ^ 2) + fl (fl q ^ 2))) := by
  have hD := DBL_MAX_ge
  have e500 : fl ((2 : ℝ) ^ 500) = 2 ^ 500 := by
    have := fl_two_pow 500 (by norm_num)
    rwa [show (2 : ℝ) ^ (500 : ℤ) = 2 ^ 500 by norm_num] at this
  have e1000 : fl ((2 : ℝ) ^ 1000) = 2 ^ 1000 := by
    have := fl_two_pow 1000 (by norm_num)
    rwa [show (2 : ℝ) ^ (1000 : ℤ) = 2 ^ 1000 by norm_num] at this
  have e1001 : fl ((2 : ℝ) ^ 1001) = 2 ^ 1001 := by
    have := fl_two_pow 1001 (by norm_num)
    rwa [show (2 : ℝ) ^ (1001 : ℤ) = 2 ^ 1001 by norm_num] at this
  have key : ∀ t : ℝ, |t| ≤ 2 ^ 500 → |fl t| ≤ 2 ^ 500 ∧ fl (fl t ^ 2) ≤ 2 ^ 1000 := by
    intro t ht
    have h1 : |fl t| ≤ 2 ^ 500 := by
      rw [abs_fl, ← e500]
      exact fl_mono ht
    refine ⟨h1, ?_⟩
    have h2 : fl t ^ 2 ≤ (2 : ℝ) ^ 1000 := by
      have : fl t ^ 2 = |fl t| ^ 2 := (sq_abs _).symm
      rw [this]
      calc |fl t| ^ 2 ≤ ((2 : ℝ) ^ 500) ^ 2 := by gcongr
        _ = 2 ^ 1000 := by norm_num
    rw [← e1000]
    exact fl_mono h2
  obtain ⟨hp1, hp2⟩ := key p hp
  obtain ⟨hq1, hq2⟩ := key q hq
  have hs : fl (fl (fl p ^ 2) + fl (fl q ^ 2)) ≤ 2 ^ 1001 := by
    rw [← e1001]
    apply fl_mono
    have : (2 : ℝ) ^ 1001 = 2 ^ 1000 + 2 ^ 1000 := by norm_num
    linarith
  have h500 : (2 : ℝ) ^ 500 ≤ 2 ^ 1023 := by norm_num
  have h1000 : (2 : ℝ) ^ 1000 ≤ 2 ^ 1023 := by norm_num
  have h1001 : (2 : ℝ) ^ 1001 ≤ 2 ^ 1023 := by norm_num
  intro h
  rcases h with h | h | h | h | h <;> linarith

theorem sq_upper {X R : ℝ} (hX : 0 ≤ X) (hXR : X ≤ R) (hR : 1 / 2 ^ 400 ≤ R) :
    fl (fl X ^ 2) ≤ X ^ 2 * (1 + 1 / 2 ^ 53) ^ 3 + R ^ 2 / 2 ^ 274 := by
  have hR0 : (0 : ℝ) < R := lt_of_lt_of_le (by positivity) hR
  have ha0 : 0 ≤ fl X := fl_nonneg hX
  have ha1 := fl_upper hX
  have hη : (1 : ℝ) / 2 ^ 1075 ≤ R / 2 ^ 675 := by
    have : (1 : ℝ) / 2 ^ 1075 = 1 / 2 ^ 400 / 2 ^ 675 := by
      rw [div_div, ← pow_add]
    rw [this]
    exact div_le_div_of_nonneg_right hR (by positivity)
  have hη2 : (1 : ℝ) / 2 ^ 1075 ≤ R ^ 2 / 2 ^ 275 := by
    have h1 : (1 / 2 ^ 400 : ℝ) ^ 2 ≤ R ^ 2 := pow_le_pow_left₀ (by positivity) hR 2
    have : (1 : ℝ) / 2 ^ 1075 = (1 / 2 ^ 400) ^ 2 / 2 ^ 275 := by
      rw [div_pow, one_pow, ← pow_mul, div_div, ← pow_add]
    rw [this]
    exact div_le_div_of_nonneg_right h1 (by positivity)
  -- the rounded difference is at most X (1 + u) + R / 2 ^ 675
  have ha2 : fl X ≤ X * (1 + 1 / 2 ^ 53) + R / 2 ^ 675 := by linarith
  have hsq : fl X ^ 2 ≤ (X * (1 + 1 / 2 ^ 53) + R / 2 ^ 675) ^ 2 :=
    pow_le_pow_left₀ ha0 ha2 2
  have hexp : (X * (1 + 1 / 2 ^ 53) + R / 2 ^ 675) ^ 2
      ≤ X ^ 2 * (1 + 1 / 2 ^ 53) ^ 2 + R ^ 2 * (5 / 2 ^ 675) := by
    have hXR2 : X * R ≤ R * R := mul_le_mul_of_nonneg_right hXR hR0.le
    have hRR : 0 ≤ R * R := mul_nonneg hR0.le hR0.le
    have e : (X * (1 + 1 / 2 ^ 53) + R / 2 ^ 675) ^ 2
        = X ^ 2 * (1 + 1 / 2 ^ 53) ^ 2 + X * R * (2 * (1 + 1 / 2 ^ 53) / 2 ^ 675)
          + R * R * (1 / 2 ^ 675) ^ 2 := by ring
    rw [e]
    have h1 : X * R * (2 * (1 + 1 / 2 ^ 53) / 2 ^ 675) ≤ R * R * (4 / 2 ^ 675) := by
      have hc : (2 * (1 + 1 / 2 ^ 53) / 2 ^ 675 : ℝ) ≤ 4 / 2 ^ 675 := by
        apply div_le_div_of_nonneg_right _ (by positivity)
        norm_num
      calc X * R * (2 * (1 + 1 / 2 ^ 53) / 2 ^ 675)
          ≤ R * R * (2 * (1 + 1 / 2 ^ 53) / 2 ^ 675) :=
            mul_le_mul_of_nonneg_right hXR2 (by positivity)
        _ ≤ R * R * (4 / 2 ^ 675) := mul_le_mul_of_nonneg_left hc hRR
    have h2 : R * R * (1 / 2 ^ 675 : ℝ) ^ 2 ≤ R * R * (1 / 2 ^ 675) := by
      apply mul_le_mul_of_nonneg_left _ hRR
      have : (1 / 2 ^ 675 : ℝ) ≤ 1 := by
        rw [div_le_one (by positivity)]
        exact one_le_pow₀ (by norm_num)
      calc (1 / 2 ^ 675 : ℝ) ^ 2 = (1 / 2 ^ 675) * (1 / 2 ^ 675) := by ring
        _ ≤ 1 * (1 / 2 ^ 675) := mul_le_mul_of_nonneg_right this (by positivity)
        _ = 1 / 2 ^ 675 := by ring
    nlinarith
  have hs1 := fl_upper (sq_nonneg (fl X))
  have hX2 : 0 ≤ X ^ 2 := sq_nonneg X
  have hR2 : 0 ≤ R ^ 2 := sq_nonneg R
  -- collect
  have hfin : (X ^ 2 * (1 + 1 / 2 ^ 53) ^ 2 + R ^ 2 * (5 / 2 ^ 675)) * (1 + 1 / 2 ^ 53)
      + R ^ 2 / 2 ^ 275 ≤ X ^ 2 * (1 + 1 / 2 ^ 53) ^ 3 + R ^ 2 / 2 ^ 274 := by
    have hc : (5 / 2 ^ 675 * (1 + 1 / 2 ^ 53) + 1 / 2 ^ 275 : ℝ) ≤ 1 / 2 ^ 274 := by
      norm_num
    have := mul_le_mul_of_nonneg_left hc hR2
    nlinarith
  have hstep : fl X ^ 2 * (1 + 1 / 2 ^ 53)
      ≤ (X ^ 2 * (1 + 1 / 2 ^ 53) ^ 2 + R ^ 2 * (5 / 2 ^ 675)) * (1 + 1 / 2 ^ 53) :=
    mul_le_mul_of_nonneg_right (le_trans hsq hexp) (by positivity)
  linarith

theorem sq_lower {X D : ℝ} (hX : 0 ≤ X) (hXD : X ≤ D) (hD : 1 / 2 ^ 400 ≤ D) :
    X ^ 2 * (1 - 1 / 2 ^ 53) ^ 3 - D ^ 2 / 2 ^ 274 ≤ fl (fl X ^ 2) := by
  have hD0 : (0 : ℝ) < D := lt_of_lt_of_le (by positivity) hD
  have ha0 : 0 ≤ fl X := fl_nonneg hX
  have ha1 := fl_lower hX
  have hu : (0 : ℝ) ≤ 1 - 1 / 2 ^ 53 := by norm_num
  have hu1 : (1 - 1 / 2 ^ 53 : ℝ) ≤ 1 := by norm_num
  have hη : (1 : ℝ) / 2 ^ 1075 ≤ D / 2 ^ 675 := by
    have : (1 : ℝ) / 2 ^ 1075 = 1 / 2 ^ 400 / 2 ^ 675 := by
      rw [div_div, ← pow_add]
    rw [this]
    exact div_le_div_of_nonneg_right hD (by positivity)
  have hη2 : (1 : ℝ) / 2 ^ 1075 ≤ D ^ 2 / 2 ^ 275 := by
    have h1 : (1 / 2 ^ 400 : ℝ) ^ 2 ≤ D ^ 2 := pow_le_pow_left₀ (by positivity) hD 2
    have : (1 : ℝ) / 2 ^ 1075 = (1 / 2 ^ 400) ^ 2 / 2 ^ 275 := by
      rw [div_pow, one_pow, ← pow_mul, div_div, ← pow_add]
    rw [this]
    exact div_le_div_of_nonneg_right h1 (by positivity)
  have hη0 : (0 : ℝ) < 1 / 2 ^ 1075 := by positivity
  have hXη : X * (1 / 2 ^ 1075) ≤ D ^ 2 / 2 ^ 675 := by
    calc X * (1 / 2 ^ 1075) ≤ D * (D / 2 ^ 675) :=
          mul_le_mul hXD hη hη0.le hD0.le
      _ = D ^ 2 / 2 ^ 675 := by ring
  -- the square of the rounded difference
  have hsq : X ^ 2 * (1 - 1 / 2 ^ 53) ^ 2 - 2 * (X * (1 / 2 ^ 1075)) ≤ fl X ^ 2 := by
    by_cases hL : 0 ≤ X * (1 - 1 / 2 ^ 53) - 1 / 2 ^ 1075
    · have h1 : (X * (1 - 1 / 2 ^ 53) - 1 / 2 ^ 1075) ^ 2 ≤ fl X ^ 2 :=
        pow_le_pow_left₀ hL ha1 2
      have h2 : X * (1 / 2 ^ 1075) * (1 - 1 / 2 ^ 53) ≤ X * (1 / 2 ^ 1075) * 1 :=
        mul_le_mul_of_nonneg_left hu1 (mul_nonneg hX hη0.le)
      nlinarith [sq_nonneg (1 / 2 ^ 1075 : ℝ)]
    · push_neg at hL
      have h1 : X * (1 - 1 / 2 ^ 53) < 1 / 2 ^ 1075 := by linarith
      have h2 : X * (1 - 1 / 2 ^ 53) * (X * (1 - 1 / 2 ^ 53))
          ≤ 1 / 2 ^ 1075 * (X * (1 - 1 / 2 ^ 53)) :=
        mul_le_mul_of_nonneg_right h1.le (mul_nonneg hX hu)
      have h3 : 1 / 2 ^ 1075 * (X * (1 - 1 / 2 ^ 53)) ≤ 1 / 2 ^ 1075 * (X * 1) :=
        mul_le_mul_of_nonneg_left (mul_le_mul_of_nonneg_left hu1 hX) hη0.le
      have h4 : 0 ≤ X * (1 / 2 ^ 1075) := mul_nonneg hX hη0.le
      nlinarith [sq_nonneg (fl X)]
  have hs1 := fl_lower (sq_nonneg (fl X))
  have hD2 : 0 ≤ D ^ 2 := sq_nonneg D
  have hstep : (X ^ 2 * (1 - 1 / 2 ^ 53) ^ 2 - 2 * (X * (1 / 2 ^ 1075))) * (1 - 1 / 2 ^ 53)
      ≤ fl X ^ 2 * (1 - 1 / 2 ^ 53) := mul_le_mul_of_nonneg_right hsq hu
  have h5 : 2 * (X * (1 / 2 ^ 1075)) * (1 - 1 / 2 ^ 53) ≤ 2 * (D ^ 2 / 2 ^ 675) := by
    have : 2 * (X * (1 / 2 ^ 1075)) * (1 - 1 / 2 ^ 53) ≤ 2 * (X * (1 / 2 ^ 1075)) * 1 :=
      mul_le_mul_of_nonneg_left hu1 (by positivity)
    linarith
  have hc : (2 / 2 ^ 675 + 1 / 2 ^ 275 : ℝ) ≤ 1 / 2 ^ 274 := by norm_num
  have h6 := mul_le_mul_of_nonneg_left hc hD2
  nlinarith

/-- When the Euclidean distance is below `R (1 - 2 ^ -50)`, the distance as
computed in `double` arithmetic is below `R (1 - 2 ^ -53)`. -/
theorem dist_upper {X Y R : ℝ} (hX : 0 ≤ X) (hY : 0 ≤ Y) (hR : 1 / 2 ^ 400 ≤ R)
    (hD : Real.sqrt (X ^ 2 + Y ^ 2) < R * (1 - 1 / 2 ^ 50)) :
    fl (Real.sqrt (fl (fl (fl X ^ 2) + fl (fl Y ^ 2)))) < R * (1 - 1 / 2 ^ 53) := by
  have hR0 : (0 : ℝ) < R := lt_of_lt_of_le (by positivity) hR
  have hD0 : 0 ≤ Real.sqrt (X ^ 2 + Y ^ 2) := Real.sqrt_nonneg _
  have hDsq : Real.sqrt (X ^ 2 + Y ^ 2) ^ 2 = X ^ 2 + Y ^ 2 :=
    Real.sq_sqrt (by positivity)
  have hDR : Real.sqrt (X ^ 2 + Y ^ 2) ≤ R := by
    have : R * (1 - 1 / 2 ^ 50) ≤ R * 1 :=
      mul_le_mul_of_nonneg_left (by norm_num) hR0.le
    linarith
  have hXD : X ≤ Real.sqrt (X ^ 2 + Y ^ 2) :=
    Real.le_sqrt_of_sq_le (by nlinarith [sq_nonneg Y])
  have hYD : Y ≤ Real.sqrt (X ^ 2 + Y ^ 2) :=
    Real.le_sqrt_of_sq_le (by nlinarith [sq_nonneg X])
  have hsx := sq_upper hX (le_trans hXD hDR) hR
  have hsy := sq_upper hY (le_trans hYD hDR) hR
  have hsx0 : 0 ≤ fl (fl X ^ 2) := fl_nonneg (sq_nonneg _)
  have hsy0 : 0 ≤ fl (fl Y ^ 2) := fl_nonneg (sq_nonneg _)
  have hs := fl_upper (add_nonneg hsx0 hsy0)
  have hR2 : 0 ≤ R ^ 2 := sq_nonneg R
  have hη2 : (1 : ℝ) / 2 ^ 1075 ≤ R ^ 2 / 2 ^ 275 := by
    have h1 : (1 / 2 ^ 400 : ℝ) ^ 2 ≤ R ^ 2 := pow_le_pow_left₀ (by positivity) hR 2
    have : (1 : ℝ) / 2 ^ 1075 = (1 / 2 ^ 400) ^ 2 / 2 ^ 275 := by
      rw [div_pow, one_pow, ← pow_mul, div_div, ← pow_add]
    rw [this]
    exact div_le_div_of_nonneg_right h1 (by positivity)
  have hη : (1 : ℝ) / 2 ^ 1075 ≤ R / 2 ^ 675 := by
    have : (1 : ℝ) / 2 ^ 1075 = 1 / 2 ^ 400 / 2 ^ 675 := by
      rw [div_div, ← pow_add]
    rw [this]
    exact div_le_div_of_nonneg_right hR (by positivity)
  -- the rounded sum of squares is at most (R (1 - 3u)) ^ 2
  have hD2 : X ^ 2 + Y ^ 2 ≤ (R * (1 - 1 / 2 ^ 50)) ^ 2 := by
    rw [← hDsq]
    exact pow_le_pow_left₀ hD0 hD.le 2
  have hsum : fl (fl (fl X ^ 2) + fl (fl Y ^ 2)) ≤ (R * (1 - 3 / 2 ^ 53)) ^ 2 := by
    have h1 : (fl (fl X ^ 2) + fl (fl Y ^ 2)) * (1 + 1 / 2 ^ 53)
        ≤ ((X ^ 2 + Y ^ 2) * (1 + 1 / 2 ^ 53) ^ 3 + 2 * (R ^ 2 / 2 ^ 274)) * (1 + 1 / 2 ^ 53) :=
      mul_le_mul_of_nonneg_right (by linarith) (by positivity)
    have h2 : ((X ^ 2 + Y ^ 2) * (1 + 1 / 2 ^ 53) ^ 3) * (1 + 1 / 2 ^ 53)
        ≤ ((R * (1 - 1 / 2 ^ 50)) ^ 2 * (1 + 1 / 2 ^ 53) ^ 3) * (1 + 1 / 2 ^ 53) :=
      mul_le_mul_of_nonneg_right (mul_le_mul_of_nonneg_right hD2 (by positivity))
        (by positivity)
    have hc : ((1 - 1 / 2 ^ 50) ^ 2 * (1 + 1 / 2 ^ 53) ^ 4
        + 2 / 2 ^ 274 * (1 + 1 / 2 ^ 53) + 1 / 2 ^ 275 : ℝ) ≤ (1 - 3 / 2 ^ 53) ^ 2 := by
      norm_num
    have h3 := mul_le_mul_of_nonneg_left hc hR2
    nlinarith
  have hsqrt : Real.sqrt (fl (fl (fl X ^ 2) + fl (fl Y ^ 2))) ≤ R * (1 - 3 / 2 ^ 53) := by
    have h0 : 0 ≤ R * (1 - 3 / 2 ^ 53) := mul_nonneg hR0.le (by norm_num)
    calc Real.sqrt (fl (fl (fl X ^ 2) + fl (fl Y ^ 2)))
        ≤ Real.sqrt ((R * (1 - 3 / 2 ^ 53)) ^ 2) := Real.sqrt_le_sqrt hsum
      _ = R * (1 - 3 / 2 ^ 53) := Real.sqrt_sq h0
  have hd := fl_upper (Real.sqrt_nonneg (fl (fl (fl X ^ 2) + fl (fl Y ^ 2))))
  have h4 : Real.sqrt (fl (fl (fl X ^ 2) + fl (fl Y ^ 2))) * (1 + 1 / 2 ^ 53)
      ≤ R * (1 - 3 / 2 ^ 53) * (1 + 1 / 2 ^ 53) :=
    mul_le_mul_of_nonneg_right hsqrt (by positivity)
  have hc2 : ((1 - 3 / 2 ^ 53) * (1 + 1 / 2 ^ 53) + 1 / 2 ^ 675 : ℝ) < 1 - 1 / 2 ^ 53 := by
    norm_num
  have h5 := mul_lt_mul_of_pos_left hc2 hR0
  nlinarith

/-- When the Euclidean distance is above `R (1 + 2 ^ -50)`, the distance as
computed in `double` arithmetic is above `R (1 + 2 ^ -53)`. -/
theorem dist_lower {X Y R : ℝ} (hX : 0 ≤ X) (hY : 0 ≤ Y) (hR : 1 / 2 ^ 400 ≤ R)
    (hD : R * (1 + 1 / 2 ^ 50) < Real.sqrt (X ^ 2 + Y ^ 2)) :
    R * (1 + 1 / 2 ^ 53) < fl (Real.sqrt (fl (fl (fl X ^ 2) + fl (fl Y ^ 2)))) := by
  have hR0 : (0 : ℝ) < R := lt_of_lt_of_le (by positivity) hR
  set D := Real.sqrt (X ^ 2 + Y ^ 2) with hDdef
  have hDsq : D ^ 2 = X ^ 2 + Y ^ 2 := Real.sq_sqrt (by positivity)
  have hRD : R ≤ D := by
    have : R * 1 ≤ R * (1 + 1 / 2 ^ 50) :=
      mul_le_mul_of_nonneg_left (by norm_num) hR0.le
    linarith
  have hD400 : 1 / 2 ^ 400 ≤ D := le_trans hR hRD
  have hD0 : 0 < D := lt_of_lt_of_le hR0 hRD
  have hXD : X ≤ D := Real.le_sqrt_of_sq_le (by nlinarith [sq_nonneg Y])
  have hYD : Y ≤ D := Real.le_sqrt_of_sq_le (by nlinarith [sq_nonneg X])
  have hsx := sq_lower hX hXD hD400
  have hsy := sq_lower hY hYD hD400
  have hsx0 : 0 ≤ fl (fl X ^ 2) := fl_nonneg (sq_nonneg _)
  have hsy0 : 0 ≤ fl (fl Y ^ 2) := fl_nonneg (sq_nonneg _)
  have hs := fl_lower (add_nonneg hsx0 hsy0)
  have hD2 : 0 ≤ D ^ 2 := sq_nonneg D
  have hη2 : (1 : ℝ) / 2 ^ 1075 ≤ D ^ 2 / 2 ^ 275 := by
    have h1 : (1 / 2 ^ 400 : ℝ) ^ 2 ≤ D ^ 2 := pow_le_pow_left₀ (by positivity) hD400 2
    have : (1 : ℝ) / 2 ^ 1075 = (1 / 2 ^ 400) ^ 2 / 2 ^ 275 := by
      rw [div_pow, one_pow, ← pow_mul, div_div, ← pow_add]
    rw [this]
    exact div_le_div_of_nonneg_right h1 (by positivity)
  have hη : (1 : ℝ) / 2 ^ 1075 ≤ D / 2 ^ 675 := by
    have : (1 : ℝ) / 2 ^ 1075 = 1 / 2 ^ 400 / 2 ^ 675 := by
      rw [div_div, ← pow_add]
    rw [this]
    exact div_le_div_of_nonneg_right hD400 (by positivity)
  have hu : (0 : ℝ) ≤ 1 - 1 / 2 ^ 53 := by norm_num
  have hsum : (D * (1 - 3 / 2 ^ 53)) ^ 2 ≤ fl (fl (fl X ^ 2) + fl (fl Y ^ 2)) := by
    have h1 : ((X ^ 2 + Y ^ 2) * (1 - 1 / 2 ^ 53) ^ 3 - 2 * (D ^ 2 / 2 ^ 274))
        * (1 - 1 / 2 ^ 53) ≤ (fl (fl X ^ 2) + fl (fl Y ^ 2)) * (1 - 1 / 2 ^ 53) :=
      mul_le_mul_of_nonneg_right (by linarith) hu
    have hc : ((1 - 3 / 2 ^ 53) ^ 2 : ℝ) ≤ (1 - 1 / 2 ^ 53) ^ 4
        - 2 / 2 ^ 274 * (1 - 1 / 2 ^ 53) - 1 / 2 ^ 275 := by
      norm_num
    have h3 := mul_le_mul_of_nonneg_left hc hD2
    rw [← hDsq] at h1
    nlinarith
  have hsqrt : D * (1 - 3 / 2 ^ 53) ≤ Real.sqrt (fl (fl (fl X ^ 2) + fl (fl Y ^ 2))) :=
    Real.le_sqrt_of_sq_le hsum
  have hd := fl_lower (Real.sqrt_nonneg (fl (fl (fl X ^ 2) + fl (fl Y ^ 2))))
  have h4 : D * (1 - 3 / 2 ^ 53) * (1 - 1 / 2 ^ 53)
      ≤ Real.sqrt (fl (fl (fl X ^ 2) + fl (fl Y ^ 2))) * (1 - 1 / 2 ^ 53) :=
    mul_le_mul_of_nonneg_right hsqrt hu
  -- D (1 - 5u) ≤ the computed distance, and R (1 + u) < D (1 - 5u)
  have hc2 : ((1 - 5 / 2 ^ 53 : ℝ)) ≤ (1 - 3 / 2 ^ 53) * (1 - 1 / 2 ^ 53) - 1 / 2 ^ 675 := by
    norm_num
  have h5 := mul_le_mul_of_nonneg_left hc2 hD0.le
  have hc3 : ((1 + 1 / 2 ^ 53 : ℝ)) ≤ (1 + 1 / 2 ^ 50) * (1 - 5 / 2 ^ 53) := by norm_num
  have h6 := mul_le_mul_of_nonneg_left hc3 hR0.le
  have h7 : R * (1 + 1 / 2 ^ 50) * (1 - 5 / 2 ^ 53) < D * (1 - 5 / 2 ^ 53) :=
    mul_lt_mul_of_pos_right hD (by norm_num)
  nlinarith
theorem cexA_dx : fl ((0 : ℝ) - 12) = -(12) := by
  rw [fl_exact_of (-3) (2) (by norm_num) (by norm_num) (by norm_num)]
  norm_num

theorem cexA_dy : fl ((0 : ℝ) - (16 - 1 / 2 ^ 49)) = -(9007199254740991 / 562949953421312) := by
  rw [fl_exact_of (-9007199254740991) (-49) (by norm_num) (by norm_num) (by norm_num)]
  norm_num

theorem cexA_sx : fl ((-(12) : ℝ) ^ 2) = 144 := by
  rw [fl_exact_of (9) (4) (by norm_num) (by norm_num) (by norm_num)]
  norm_num

theorem cexA_sy : fl ((-(9007199254740991 / 562949953421312) : ℝ) ^ 2) = 4503599627370495 / 17592186044416 := by
  have h := fl_eval (x := (-(9007199254740991 / 562949953421312) : ℝ) ^ 2) (e := 7) (m := 9007199254740990) (by norm_num) (by norm_num)
    (by norm_num)
    (roundEven_of_close _ _ (by rw [abs_lt]; constructor <;> norm_num))
  rw [h]; norm_num

theorem cexA_s : fl ((144 : ℝ) + 4503599627370495 / 17592186044416) = 7036874417766399 / 17592186044416 := by
  rw [fl_exact_of (7036874417766399) (-44) (by norm_num) (by norm_num) (by norm_num)]
  norm_num

theorem cexA_d : fl (Real.sqrt ((7036874417766399 / 17592186044416 : ℝ))) = 20 := by
  rw [fl_sqrt_eval (S := (7036874417766399 / 17592186044416 : ℝ)) (e := 4) (m := 5629499534213120) (by norm_num) (by norm_num) (by norm_num)
    (by norm_num) (by norm_num)]
  norm_num

theorem cexA_r : fl ((10 : ℝ) + 10) = 20 := by
  rw [fl_exact_of (5) (2) (by norm_num) (by norm_num) (by norm_num)]
  norm_num

theorem cexB_dx : fl ((0 : ℝ) - 2422530189) = -(2422530189) := by
  rw [fl_exact_of (-2422530189) (0) (by norm_num) (by norm_num) (by norm_num)]
  norm_num

theorem cexB_dy : fl ((0 : ℝ) - 3230040252) = -(3230040252) := by
  rw [fl_exact_of (-807510063) (2) (by norm_num) (by norm_num) (by norm_num)]
  norm_num

theorem cexB_sx : fl ((-(2422530189) : ℝ) ^ 2) = 5868652516616375296 := by
  have h := fl_eval (x := (-(2422530189) : ℝ) ^ 2) (e := 62) (m := 5731105973258179) (by norm_num) (by norm_num)
    (by norm_num)
    (roundEven_of_close _ _ (by rw [abs_lt]; constructor <;> norm_num))
  rw [h]; norm_num

theorem cexB_sy : fl ((-(3230040252) : ℝ) ^ 2) = 10433160029540222976 := by
  have h := fl_eval (x := (-(3230040252) : ℝ) ^ 2) (e := 63) (m := 5094316420673937) (by norm_num) (by norm_num)
    (by norm_num)
    (roundEven_of_close _ _ (by rw [abs_lt]; constructor <;> norm_num))
  rw [h]; norm_num

theorem cexB_s : fl ((5868652516616375296 : ℝ) + 10433160029540222976) = 16301812546156597248 := by
  have h := fl_eval (x := (5868652516616375296 : ℝ) + 10433160029540222976) (e := 63) (m := 7959869407303026) (by norm_num) (by norm_num)
    (by norm_num)
    (by rw [show ((5868652516616375296 : ℝ) + 10433160029540222976) / (2 : ℝ) ^ ((63 : ℤ) - 52) = ((7959869407303026 : ℤ) : ℝ) + 1 / 2 by norm_num]; exact roundEven_tie_even _ (by decide))
  rw [h]; norm_num

theorem cexB_d : fl (Real.sqrt ((16301812546156597248 : ℝ))) = 8467356718202879 / 2097152 := by
  rw [fl_sqrt_eval (S := (16301812546156597248 : ℝ)) (e := 31) (m := 8467356718202879) (by norm_num) (by norm_num) (by norm_num)
    (by norm_num) (by norm_num)]
  norm_num

theorem cexB_r : fl ((4037550305 : ℝ) + 10) = 4037550315 := by
  rw [fl_exact_of (4037550315) (0) (by norm_num) (by norm_num) (by norm_num)]
  norm_num

theorem DBL_MAX_pos : 0 < DBL_MAX := by
  unfold DBL_MAX
  norm_num

/-- C1, as stated, fails. At the centres (0, 0) and (12, 16 - 2^-49) with
radii 10 and 10 the Euclidean distance is below 20, but the distance computed
in `double` arithmetic is 20 and the function returns false. At the centres
(0, 0) and (2422530189, 3230040252) with radii 4037550305 and 10 the distance
equals the radius sum, but the computed distance is below it and the function
returns true. At the centres (0, 0) and (2^600, 0) with radii 2^600 the
distance is below the radius sum, but the square overflows and the function
returns false. With `gScore = INT_MAX` a true result leaves `gScore` at
`INT_MIN`, not at `gScore + 1`. -/
theorem checkCollision_not_exact :
    (Real.sqrt (((0 : ℝ) - 12) ^ 2 + ((0 : ℝ) - (16 - 1 / 2 ^ 49)) ^ 2) < 10 + 10 ∧
      checkCollision 0 0 10 12 (16 - 1 / 2 ^ 49) 10 0 = (false, 0)) ∧
    (Real.sqrt (((0 : ℝ) - 2422530189) ^ 2 + ((0 : ℝ) - 3230040252) ^ 2) = 4037550305 + 10 ∧
      checkCollision 0 0 4037550305 2422530189 3230040252 10 0 = (true, 1)) ∧
    (Real.sqrt (((0 : ℝ) - 2 ^ 600) ^ 2 + ((0 : ℝ) - 0) ^ 2) < 2 ^ 600 + 2 ^ 600 ∧
      checkCollision 0 0 (2 ^ 600) (2 ^ 600) 0 (2 ^ 600) 0 = (false, 0)) ∧
    checkCollision 0 0 10 0 0 10 2147483647 = (true, -2147483648) := by
  have hD := DBL_MAX_ge
  have hD1023 : (2 : ℝ) ^ 1023 = 2 ^ 1023 := rfl
  refine ⟨⟨?_, ?_⟩, ⟨?_, ?_⟩, ⟨?_, ?_⟩, ?_⟩
  · rw [Real.sqrt_lt' (by norm_num)]
    norm_num
  · rw [checkCollision_eval 0 cexA_dx cexA_dy cexA_sx cexA_sy cexA_s cexA_d cexA_r]
    have hbig : (100000 : ℝ) ≤ 2 ^ 1023 := by norm_num
    rw [if_neg, if_neg]
    · intro h
      rcases h with h | h <;> linarith
    · intro h
      rcases h with h | h | h | h | h
      · rw [abs_of_nonpos (by norm_num)] at h; linarith
      · rw [abs_of_nonpos (by norm_num)] at h
        have : (-(-(9007199254740991 / 562949953421312)) : ℝ) ≤ 100000 := by norm_num
        linarith
      · linarith
      · have : (4503599627370495 / 17592186044416 : ℝ) ≤ 100000 := by norm_num
        linarith
      · have : (7036874417766399 / 17592186044416 : ℝ) ≤ 100000 := by norm_num
        linarith
  · rw [show ((0 : ℝ) - 2422530189) ^ 2 + ((0 : ℝ) - 3230040252) ^ 2
        = (4037550315 : ℝ) ^ 2 by norm_num, Real.sqrt_sq (by norm_num)]
    norm_num
  · rw [checkCollision_eval 0 cexB_dx cexB_dy cexB_sx cexB_sy cexB_s cexB_d cexB_r]
    have hbig : (10 : ℝ) ^ 30 ≤ 2 ^ 1023 := by norm_num
    rw [if_neg, if_pos]
    · rfl
    · right; norm_num
    · intro h
      rcases h with h | h | h | h | h
      · rw [abs_of_nonpos (by norm_num)] at h
        have : (-(-(2422530189)) : ℝ) ≤ 10 ^ 30 := by norm_num
        linarith
      · rw [abs_of_nonpos (by norm_num)] at h
        have : (-(-(3230040252)) : ℝ) ≤ 10 ^ 30 := by norm_num
        linarith
      · have : (5868652516616375296 : ℝ) ≤ 10 ^ 30 := by norm_num
        linarith
      · have : (10433160029540222976 : ℝ) ≤ 10 ^ 30 := by norm_num
        linarith
      · have : (16301812546156597248 : ℝ) ≤ 10 ^ 30 := by norm_num
        linarith
  · rw [show ((0 : ℝ) - 2 ^ 600) ^ 2 + ((0 : ℝ) - 0) ^ 2 = ((2 : ℝ) ^ 600) ^ 2 by ring,
      Real.sqrt_sq (by positivity)]
    have : (0 : ℝ) < 2 ^ 600 := by positivity
    linarith
  · have hdx : fl ((0 : ℝ) - 2 ^ 600) = -(2 ^ 600) := by
      rw [fl_exact_of (-1) 600 (by norm_num) (by norm_num) (by norm_num)]
      norm_num
    have hsx : fl ((-(2 ^ 600) : ℝ) ^ 2) = 2 ^ 1200 := by
      rw [fl_exact_of 1 1200 (by norm_num) (by norm_num) (by norm_num)]
      norm_num
    rw [checkCollision_eval 0 hdx rfl hsx rfl rfl rfl rfl]
    rw [if_pos]
    right; right; left
    unfold DBL_MAX
    norm_num
  · have h0 : fl ((0 : ℝ) - 0) = 0 := by rw [sub_zero, fl_zero]
    have hs0 : fl ((0 : ℝ) ^ 2) = 0 := by norm_num [fl_zero]
    have hsum : fl ((0 : ℝ) + 0) = 0 := by rw [add_zero, fl_zero]
    have hd0 : fl (Real.sqrt 0) = 0 := by rw [Real.sqrt_zero, fl_zero]
    rw [checkCollision_eval 2147483647 h0 h0 hs0 hs0 hsum hd0 cexA_r]
    have hpos := DBL_MAX_pos
    rw [if_neg, if_pos]
    · rfl
    · right; norm_num
    · intro h
      rcases h with h | h | h | h | h
      · rw [abs_zero] at h; linarith
      · rw [abs_zero] at h; linarith
      · linarith
      · linarith
      · linarith

theorem fl_radius_bounds {R : ℝ} (hR : 1 / 2 ^ 400 ≤ R) :
    R * (1 - 1 / 2 ^ 53) ≤ fl R ∧ fl R ≤ R * (1 + 1 / 2 ^ 53) := by
  have hR0 : (0 : ℝ) < R := lt_of_lt_of_le (by positivity) hR
  have hn : (2 : ℝ) ^ (-1022 : ℤ) ≤ |R| := by
    rw [abs_of_pos hR0]
    have : (2 : ℝ) ^ (-1022 : ℤ) ≤ 1 / 2 ^ 400 := by
      rw [show (2 : ℝ) ^ (-1022 : ℤ) = 1 / 2 ^ 1022 by norm_num]
      apply one_div_le_one_div_of_le (by positivity)
      exact pow_le_pow_right₀ (by norm_num) (by norm_num)
    exact le_trans this hR
  have h := fl_rel_err hn
  rw [abs_of_pos hR0, abs_le] at h
  constructor <;> [linarith [h.1]; linarith [h.2]]

theorem checkCollision_abs (x1 y1 r1 x2 y2 r2 : ℝ) (gScore : Int) :
    checkCollision x1 y1 r1 x2 y2 r2 gScore =
      if DBL_MAX < |fl (x1 - x2)| ∨ DBL_MAX < |fl (y1 - y2)| ∨
          DBL_MAX < fl (fl (x1 - x2) ^ 2) ∨ DBL_MAX < fl (fl (y1 - y2) ^ 2) ∨
          DBL_MAX < fl (fl (fl (x1 - x2) ^ 2) + fl (fl (y1 - y2) ^ 2)) then
        (false, gScore)
      else if DBL_MAX < fl (r1 + r2) ∨
          fl (Real.sqrt (fl (fl (fl |x1 - x2| ^ 2) + fl (fl |y1 - y2| ^ 2)))) < fl (r1 + r2) then
        (true, wrapInt32 (gScore + 1))
      else (false, gScore) := by
  have ex : fl (x1 - x2) ^ 2 = fl |x1 - x2| ^ 2 := by rw [← abs_fl, sq_abs]
  have ey : fl (y1 - y2) ^ 2 = fl |y1 - y2| ^ 2 := by rw [← abs_fl, sq_abs]
  rw [checkCollision_eval gScore rfl rfl rfl rfl rfl rfl rfl, ex, ey]

/-- C1, amended: for centres whose coordinate differences are at most 2^500
in size and radii with 2^-400 <= r1 + r2 <= 2^500, `checkCollision` returns
true whenever the Euclidean distance is below (r1 + r2)(1 - 2^-50) and false
whenever it is above (r1 + r2)(1 + 2^-50) (nearer to r1 + r2 the rounding of
the `double` operations decides); so it returns true for identical centres.
`gScore` is unchanged on a false result; on a true result it becomes
`gScore + 1` when `gScore < INT_MAX`, and wraps around to `INT_MIN` from
`INT_MAX`. -/
theorem checkCollision_rounded_spec (x1 y1 r1 x2 y2 r2 : ℝ) (gScore : Int)
    (hx : |x1 - x2| ≤ 2 ^ 500) (hy : |y1 - y2| ≤ 2 ^ 500)
    (hr0 : 1 / 2 ^ 400 ≤ r1 + r2) (hr1 : r1 + r2 ≤ 2 ^ 500) :
    (Real.sqrt ((x1 - x2) ^ 2 + (y1 - y2) ^ 2) < (r1 + r2) * (1 - 1 / 2 ^ 50) →
      (checkCollision x1 y1 r1 x2 y2 r2 gScore).1 = true) ∧
    ((r1 + r2) * (1 + 1 / 2 ^ 50) < Real.sqrt ((x1 - x2) ^ 2 + (y1 - y2) ^ 2) →
      (checkCollision x1 y1 r1 x2 y2 r2 gScore).1 = false) ∧
    (checkCollision x1 y1 r1 x1 y1 r2 gScore).1 = true ∧
    ((checkCollision x1 y1 r1 x2 y2 r2 gScore).1 = true →
      (checkCollision x1 y1 r1 x2 y2 r2 gScore).2 = wrapInt32 (gScore + 1)) ∧
    (-2147483648 ≤ gScore → gScore < 2147483647 → wrapInt32 (gScore + 1) = gScore + 1) ∧
    wrapInt32 (2147483647 + 1) = -2147483648 ∧
    ((checkCollision x1 y1 r1 x2 y2 r2 gScore).1 = false →
      (checkCollision x1 y1 r1 x2 y2 r2 gScore).2 = gScore) := by
  have hR0 : (0 : ℝ) < r1 + r2 := lt_of_lt_of_le (by positivity) hr0
  obtain ⟨hrlo, hrhi⟩ := fl_radius_bounds hr0
  have hD := DBL_MAX_ge
  have hrmax : fl (r1 + r2) ≤ DBL_MAX := by
    have e500 : fl ((2 : ℝ) ^ 500) = 2 ^ 500 := by
      have := fl_two_pow 500 (by norm_num)
      rwa [show (2 : ℝ) ^ (500 : ℤ) = 2 ^ 500 by norm_num] at this
    have h1 : fl (r1 + r2) ≤ 2 ^ 500 := by
      rw [← e500]; exact fl_mono hr1
    have h2 : (2 : ℝ) ^ 500 ≤ 2 ^ 1023 := by norm_num
    linarith
  -- the result when the computed distance is below the computed radius sum
  have htrue : ∀ a b : ℝ, |a - b| ≤ 2 ^ 500 → ∀ c d : ℝ, |c - d| ≤ 2 ^ 500 →
      Real.sqrt ((a - b) ^ 2 + (c - d) ^ 2) < (r1 + r2) * (1 - 1 / 2 ^ 50) →
      (checkCollision a c r1 b d r2 gScore).1 = true := by
    intro a b hab c d hcd hlt
    have hlt2 : Real.sqrt (|a - b| ^ 2 + |c - d| ^ 2) < (r1 + r2) * (1 - 1 / 2 ^ 50) := by
      rwa [sq_abs, sq_abs]
    have hup := dist_upper (abs_nonneg (a - b)) (abs_nonneg (c - d)) hr0 hlt2
    rw [checkCollision_abs, if_neg (dist_no_overflow hab hcd), if_pos (Or.inr (by linarith))]
  refine ⟨htrue x1 x2 hx y1 y2 hy, ?_, ?_, (checkCollision_snd _ _ _ _ _ _ _).1, ?_, by decide,
    (checkCollision_snd _ _ _ _ _ _ _).2⟩
  · intro hgt
    have hgt2 : (r1 + r2) * (1 + 1 / 2 ^ 50) < Real.sqrt (|x1 - x2| ^ 2 + |y1 - y2| ^ 2) := by
      rwa [sq_abs, sq_abs]
    have hlo := dist_lower (abs_nonneg (x1 - x2)) (abs_nonneg (y1 - y2)) hr0 hgt2
    rw [checkCollision_abs, if_neg (dist_no_overflow hx hy), if_neg]
    intro h
    rcases h with h | h <;> linarith
  · apply htrue x1 x1 (by simp) y1 y1 (by simp)
    have : (0 : ℝ) < (r1 + r2) * (1 - 1 / 2 ^ 50) := mul_pos hR0 (by norm_num)
    simpa using this
  · intro h1 h2
    unfold wrapInt32
    omega

theorem checkCollision_rounded_spec_witness :
    (Real.sqrt (((0 : ℝ) - 3) ^ 2 + ((0 : ℝ) - 4) ^ 2) < (10 + 10) * (1 - 1 / 2 ^ 50) →
      (checkCollision 0 0 10 3 4 10 0).1 = true) ∧
    (((10 : ℝ) + 10) * (1 + 1 / 2 ^ 50) < Real.sqrt (((0 : ℝ) - 3) ^ 2 + ((0 : ℝ) - 4) ^ 2) →
      (checkCollision 0 0 10 3 4 10 0).1 = false) ∧
    (checkCollision 0 0 10 0 0 10 0).1 = true ∧
    ((checkCollision 0 0 10 3 4 10 0).1 = true →
      (checkCollision 0 0 10 3 4 10 0).2 = wrapInt32 (0 + 1)) ∧
    (-2147483648 ≤ (0 : Int) → (0 : Int) < 2147483647 → wrapInt32 (0 + 1) = 0 + 1) ∧
    wrapInt32 (2147483647 + 1) = -2147483648 ∧
    ((checkCollision 0 0 10 3 4 10 0).1 = false →
      (checkCollision 0 0 10 3 4 10 0).2 = 0) :=
  checkCollision_rounded_spec 0 0 10 3 4 10 0 (by norm_num [abs_le]) (by norm_num [abs_le])
    (by norm_num) (by norm_num)
/-! ### Bullet velocity -/

theorem Bullet.move_snd (b : Bullet) :
    (b.move).2 = { b with mPosX := b.mPosX + b.mVelX, mPosY := b.mPosY + b.mVelY } := by
  simp only [Bullet.move]
  split_ifs <;> rfl

theorem Bullet.move_fst (b : Bullet) :
    (b.move).1 = true ↔
      ¬ ((b.mPosY + b.mVelY + BULLET_HEIGHT < 0) ∨ (b.mPosY + b.mVelY > SCREEN_HEIGHT) ∨
        (b.mPosX + b.mVelX + BULLET_WIDTH < 0) ∨ (b.mPosX + b.mVelX > PLAYFIELD_WIDTH)) := by
  simp only [Bullet.move]
  split_ifs with h <;> simp [h]

theorem Bullet.move_vel (b : Bullet) :
    (b.move).2.mVelX = b.mVelX ∧ (b.move).2.mVelY = b.mVelY := by
  rw [Bullet.move_snd]
  exact ⟨rfl, rfl⟩

theorem Bullet.afterMoves_vel (n : Nat) (b : Bullet) :
    (Bullet.afterMoves n b).mVelX = b.mVelX ∧ (Bullet.afterMoves n b).mVelY = b.mVelY := by
  induction n generalizing b with
  | zero => simp [Bullet.afterMoves]
  | succ n ih =>
    rw [Bullet.afterMoves, (ih (b.move).2).1, (ih (b.move).2).2]
    exact Bullet.move_vel b


/-! ### The speed of a bullet -/

theorem fl_dyadic (x : ℝ) : ∃ (m : ℤ) (k : ℕ), fl x * (2 : ℝ) ^ k = (m : ℝ) := by
  have key : ∀ (r e : ℤ), ∃ (m : ℤ) (k : ℕ), (r : ℝ) * (2 : ℝ) ^ e * (2 : ℝ) ^ k = (m : ℝ) := by
    intro r e
    rcases le_or_lt 0 e with he | he
    · obtain ⟨j, rfl⟩ := Int.eq_ofNat_of_zero_le he
      exact ⟨r * 2 ^ j, 0, by push_cast; simp⟩
    · obtain ⟨j, hj⟩ : ∃ j : ℕ, e = -(j : ℤ) := ⟨(-e).toNat, by omega⟩
      refine ⟨r, j, ?_⟩
      rw [hj, mul_assoc, zpow_neg, zpow_natCast, inv_mul_cancel₀ (by positivity), mul_one]
  have pos : ∀ y : ℝ, 0 < y → ∃ (m : ℤ) (k : ℕ), fl y * (2 : ℝ) ^ k = (m : ℝ) := by
    intro y hy
    rw [fl_of_pos hy, ulp]
    exact key _ _
  rcases lt_trichotomy x 0 with h | h | h
  · obtain ⟨m, k, hm⟩ := pos (-x) (neg_pos.mpr h)
    refine ⟨-m, k, ?_⟩
    rw [fl_neg] at hm
    push_cast
    linarith
  · exact ⟨0, 0, by rw [h, fl_zero]; simp⟩
  · exact pos x h

theorem dyadic_on_circle : ∀ (K : ℕ) (m n : ℤ), m ^ 2 + n ^ 2 = 25 * 4 ^ K → (2 : ℤ) ^ K ∣ m := by
  intro K
  induction K with
  | zero => intro m n _; simp
  | succ K ih =>
    intro m n h
    have h4 : (4 : ℤ) ^ (K + 1) = 4 * 4 ^ K := by ring
    rw [h4] at h
    obtain ⟨a, ha | ha⟩ := Int.even_or_odd' m <;> obtain ⟨b, hb | hb⟩ := Int.even_or_odd' n
    · subst ha hb
      have h2 : a ^ 2 + b ^ 2 = 25 * 4 ^ K := by nlinarith
      obtain ⟨c, hc⟩ := ih a b h2
      exact ⟨c, by rw [hc]; ring⟩
    · exfalso
      subst ha hb
      have h2 : 4 * (a * a + b * b + b - 25 * 4 ^ K) = -1 := by nlinarith
      omega
    · exfalso
      subst ha hb
      have h2 : 4 * (a * a + a + b * b - 25 * 4 ^ K) = -1 := by nlinarith
      omega
    · exfalso
      subst ha hb
      have h2 : 4 * (a * a + a + b * b + b - 25 * 4 ^ K) = -2 := by nlinarith
      omega

/-- Two dyadic numbers, such as two `double`s, whose squares add up to 25 are
integers. -/
theorem dyadic_speed_five {a b : ℝ} (ha : ∃ (m : ℤ) (k : ℕ), a * (2 : ℝ) ^ k = (m : ℝ))
    (hb : ∃ (m : ℤ) (k : ℕ), b * (2 : ℝ) ^ k = (m : ℝ)) (h : a ^ 2 + b ^ 2 = 25) :
    ∃ q : ℤ, a = (q : ℝ) := by
  obtain ⟨m1, k1, h1⟩ := ha
  obtain ⟨m2, k2, h2⟩ := hb
  have hA : a * (2 : ℝ) ^ (k1 + k2) = ((m1 * 2 ^ k2 : ℤ) : ℝ) := by
    push_cast; rw [← h1]; ring
  have hB : b * (2 : ℝ) ^ (k1 + k2) = ((m2 * 2 ^ k1 : ℤ) : ℝ) := by
    push_cast; rw [← h2]; ring
  have hsum : (((m1 * 2 ^ k2) ^ 2 + (m2 * 2 ^ k1) ^ 2 : ℤ) : ℝ) =
      ((25 * 4 ^ (k1 + k2) : ℤ) : ℝ) := by
    have e4 : ((4 : ℝ)) ^ (k1 + k2) = ((2 : ℝ) ^ (k1 + k2)) ^ 2 := by
      rw [← pow_mul, mul_comm, pow_mul]; norm_num
    push_cast
    push_cast at hA hB
    rw [← hA, ← hB, e4, ← h]
    ring
  have hsumZ : (m1 * 2 ^ k2) ^ 2 + (m2 * 2 ^ k1) ^ 2 = 25 * 4 ^ (k1 + k2) := by
    exact_mod_cast hsum
  obtain ⟨q, hq⟩ := dyadic_on_circle _ _ _ hsumZ
  refine ⟨q, ?_⟩
  have hpos : (0 : ℝ) < (2 : ℝ) ^ (k1 + k2) := by positivity
  have : a * (2 : ℝ) ^ (k1 + k2) = (q : ℝ) * (2 : ℝ) ^ (k1 + k2) := by
    rw [hA, hq]; push_cast; ring
  exact mul_right_cancel₀ hpos.ne' this

theorem Cmath.rounded_accurate : Cmath.rounded.accurate := by
  have e : (1 : ℝ) / 2 ^ 53 ≤ 1 / 2 ^ 52 := by norm_num
  have hM : (2 : ℝ) ^ (-1022 : ℤ) ≤ 1 := zpow_le_one_of_nonpos₀ (by norm_num) (by norm_num)
  constructor
  · intro t
    exact le_trans (fl_err_le (Real.abs_cos_le_one t) hM) e
  · intro t
    exact le_trans (fl_err_le (Real.abs_sin_le_one t) hM) e

/-- The argument of `cos` and `sin` for the firing angle 8. -/
theorem angle_eight_arg :
    (17104 : ℝ) / 10000 ≤ fl (fl (fl ((8 : ℝ) + 90) * fl PI) / 180) ∧
    fl (fl (fl ((8 : ℝ) + 90) * fl PI) / 180) ≤ 17105 / 10000 := by
  have hM : (2 : ℝ) ^ (-1022 : ℤ) ≤ 1 := zpow_le_one_of_nonpos₀ (by norm_num) (by norm_num)
  have e98 : fl ((8 : ℝ) + 90) = 98 := by
    have := fl_intCast 98 (by norm_num)
    rw [show (8 : ℝ) + 90 = 98 by norm_num]
    exact_mod_cast this
  have hPI : |fl PI - PI| ≤ 4 / 2 ^ 53 :=
    fl_err_le (by rw [PI]; norm_num [abs_le]) (le_trans hM (by norm_num))
  rw [abs_le] at hPI
  have hPIv : PI = (314159265 : ℝ) / 10 ^ 8 := by rw [PI]; norm_num
  have hPI1 : (314159264 : ℝ) / 10 ^ 8 ≤ fl PI := by norm_num at hPI hPIv ⊢; linarith
  have hPI2 : fl PI ≤ (314159266 : ℝ) / 10 ^ 8 := by norm_num at hPI hPIv ⊢; linarith
  have hp : |fl (98 * fl PI) - 98 * fl PI| ≤ 512 / 2 ^ 53 :=
    fl_err_le (by rw [abs_le]; constructor <;> linarith) (le_trans hM (by norm_num))
  rw [abs_le] at hp
  have hp1 : (30787 : ℝ) / 100 ≤ fl (98 * fl PI) := by norm_num at hp ⊢; linarith
  have hp2 : fl (98 * fl PI) ≤ (30788 : ℝ) / 100 := by norm_num at hp ⊢; linarith
  have ht : |fl (fl (98 * fl PI) / 180) - fl (98 * fl PI) / 180| ≤ 2 / 2 ^ 53 :=
    fl_err_le (by rw [abs_le]; constructor <;> linarith) (le_trans hM (by norm_num))
  rw [abs_le] at ht
  rw [e98]
  constructor
  · norm_num at ht ⊢; linarith
  · norm_num at ht ⊢; linarith

theorem cos_near_ninety {t : ℝ} (h1 : (17104 : ℝ) / 10000 ≤ t) (h2 : t ≤ 17105 / 10000) :
    -(1398 : ℝ) / 10000 < Real.cos t ∧ Real.cos t < -(1388 : ℝ) / 10000 := by
  have hpi1 := Real.pi_gt_d6
  have hpi2 := Real.pi_lt_d6
  have hu1 : (1396 : ℝ) / 10000 < t - Real.pi / 2 := by linarith
  have hu2 : t - Real.pi / 2 < (1398 : ℝ) / 10000 := by linarith
  have hcos : Real.cos t = -Real.sin (t - Real.pi / 2) := by
    rw [Real.sin_sub_pi_div_two, neg_neg]
  have hs1 := Real.sin_lt (by linarith : 0 < t - Real.pi / 2)
  have hs2 := Real.sin_gt_sub_cube (by linarith : 0 < t - Real.pi / 2) (by linarith)
  have hcube : (t - Real.pi / 2) ^ 3 ≤ (1398 / 10000 : ℝ) ^ 3 :=
    pow_le_pow_left₀ (by linarith) hu2.le 3
  rw [hcos]
  constructor
  · linarith
  · norm_num at hcube
    linarith

theorem angle_eight_velX (M : Cmath) (hM : M.accurate) :
    -(3 : ℝ) / 4 ≤ (Bullet_Bullet_double M 0 0 8).mVelX ∧
    (Bullet_Bullet_double M 0 0 8).mVelX ≤ -(1 : ℝ) / 2 := by
  obtain ⟨ht1, ht2⟩ := angle_eight_arg
  obtain ⟨hc1, hc2⟩ := cos_near_ninety ht1 ht2
  have hacc := hM.1 (fl (fl (fl ((8 : ℝ) + 90) * fl PI) / 180))
  rw [abs_le] at hacc
  have e1 : fl (-(3 : ℝ) / 4) = -(3 : ℝ) / 4 :=
    fl_exact_of (-3) (-2) (by norm_num) (by norm_num) (by norm_num)
  have e2 : fl (-(1 : ℝ) / 2) = -(1 : ℝ) / 2 :=
    fl_exact_of (-1) (-1) (by norm_num) (by norm_num) (by norm_num)
  have h5 : ((BULLET_VEL : Int) : ℝ) = 5 := by simp [BULLET_VEL]
  simp only [Bullet_Bullet_double, h5]
  constructor
  · rw [← e1]
    apply fl_mono
    norm_num at hacc ⊢
    linarith
  · rw [← e2]
    apply fl_mono
    norm_num at hacc ⊢
    linarith

theorem velocity_close (M : Cmath) (hM : M.accurate) (x y a : ℝ) :
    ∃ C S : ℝ, C ^ 2 + S ^ 2 = 1 ∧
      |(Bullet_Bullet_double M x y a).mVelX - 5 * C| ≤ 18 / 2 ^ 53 ∧
      |(Bullet_Bullet_double M x y a).mVelY - 5 * S| ≤ 18 / 2 ^ 53 := by
  have h2M : (2 : ℝ) ^ (-1022 : ℤ) ≤ 8 :=
    le_trans (zpow_le_one_of_nonpos₀ (by norm_num) (by norm_num)) (by norm_num)
  have h5 : ((BULLET_VEL : Int) : ℝ) = 5 := by simp [BULLET_VEL]
  have one : ∀ (c r : ℝ), |r| ≤ 1 → |c - r| ≤ 1 / 2 ^ 52 → |fl (c * 5) - 5 * r| ≤ 18 / 2 ^ 53 := by
    intro c r hr hc
    rw [abs_le] at hr hc
    have hfl : |fl (c * 5) - c * 5| ≤ 8 / 2 ^ 53 :=
      fl_err_le (by rw [abs_le]; norm_num at hc ⊢; constructor <;> linarith) h2M
    rw [abs_le] at hfl ⊢
    norm_num at hc hfl ⊢
    constructor <;> linarith
  refine ⟨Real.cos (fl (fl (fl (a + 90) * fl PI) / 180)),
    Real.sin (fl (fl (fl (a + 90) * fl PI) / 180)), Real.cos_sq_add_sin_sq _, ?_, ?_⟩
  · simp only [Bullet_Bullet_double, h5]
    exact one _ _ (Real.abs_cos_le_one _) (hM.1 _)
  · simp only [Bullet_Bullet_double, h5]
    exact one _ _ (Real.abs_sin_le_one _) (hM.2 _)

theorem speed_close {vx vy C S : ℝ} (h : C ^ 2 + S ^ 2 = 1) (hx : |vx - 5 * C| ≤ 18 / 2 ^ 53)
    (hy : |vy - 5 * S| ≤ 18 / 2 ^ 53) : |Real.sqrt (vx ^ 2 + vy ^ 2) - 5| ≤ 1 / 2 ^ 46 := by
  have hC : |C| ≤ 1 := by
    rw [abs_le]; constructor <;> nlinarith [sq_nonneg S, sq_nonneg (C - 1), sq_nonneg (C + 1)]
  have hS : |S| ≤ 1 := by
    rw [abs_le]; constructor <;> nlinarith [sq_nonneg C, sq_nonneg (S - 1), sq_nonneg (S + 1)]
  rw [abs_le] at hx hy hC hS
  obtain ⟨dx, hdx⟩ : ∃ dx, vx = 5 * C + dx := ⟨vx - 5 * C, by ring⟩
  obtain ⟨dy, hdy⟩ : ∃ dy, vy = 5 * S + dy := ⟨vy - 5 * S, by ring⟩
  have hdx1 : -(18 / 2 ^ 53 : ℝ) ≤ dx := by rw [hdx] at hx; linarith [hx.1]
  have hdx2 : dx ≤ (18 / 2 ^ 53 : ℝ) := by rw [hdx] at hx; linarith [hx.2]
  have hdy1 : -(18 / 2 ^ 53 : ℝ) ≤ dy := by rw [hdy] at hy; linarith [hy.1]
  have hdy2 : dy ≤ (18 / 2 ^ 53 : ℝ) := by rw [hdy] at hy; linarith [hy.2]
  have hT : vx ^ 2 + vy ^ 2 = 25 + 10 * (C * dx + S * dy) + (dx ^ 2 + dy ^ 2) := by
    rw [hdx, hdy]; linear_combination 25 * h
  have hCdx : |C * dx| ≤ 18 / 2 ^ 53 := by
    rw [abs_mul]
    calc |C| * |dx| ≤ 1 * (18 / 2 ^ 53) :=
          mul_le_mul (abs_le.mpr hC) (abs_le.mpr ⟨hdx1, hdx2⟩) (abs_nonneg _) (by norm_num)
      _ = 18 / 2 ^ 53 := one_mul _
  have hSdy : |S * dy| ≤ 18 / 2 ^ 53 := by
    rw [abs_mul]
    calc |S| * |dy| ≤ 1 * (18 / 2 ^ 53) :=
          mul_le_mul (abs_le.mpr hS) (abs_le.mpr ⟨hdy1, hdy2⟩) (abs_nonneg _) (by norm_num)
      _ = 18 / 2 ^ 53 := one_mul _
  have hdx2sq : dx ^ 2 ≤ (18 / 2 ^ 53 : ℝ) ^ 2 := by
    rw [← sq_abs dx]; exact pow_le_pow_left₀ (abs_nonneg _) (abs_le.mpr ⟨hdx1, hdx2⟩) 2
  have hdy2sq : dy ^ 2 ≤ (18 / 2 ^ 53 : ℝ) ^ 2 := by
    rw [← sq_abs dy]; exact pow_le_pow_left₀ (abs_nonneg _) (abs_le.mpr ⟨hdy1, hdy2⟩) 2
  rw [abs_le] at hCdx hSdy
  have hlow : (25 : ℝ) - 378 / 2 ^ 53 ≤ vx ^ 2 + vy ^ 2 := by
    rw [hT]
    have := sq_nonneg dx
    have := sq_nonneg dy
    norm_num at hCdx hSdy ⊢
    linarith
  have hhigh : vx ^ 2 + vy ^ 2 ≤ (25 : ℝ) + 378 / 2 ^ 53 := by
    rw [hT]
    norm_num at hCdx hSdy hdx2sq hdy2sq ⊢
    linarith
  rw [abs_le]
  constructor
  · have : (5 : ℝ) - 1 / 2 ^ 46 ≤ Real.sqrt (vx ^ 2 + vy ^ 2) := by
      apply Real.le_sqrt_of_sq_le
      norm_num at hlow ⊢
      linarith
    linarith
  · have : Real.sqrt (vx ^ 2 + vy ^ 2) ≤ (5 : ℝ) + 1 / 2 ^ 46 := by
      rw [Real.sqrt_le_left (by norm_num)]
      norm_num at hhigh ⊢
      linarith
    linarith

/-- C6, as stated, fails in `double` arithmetic: whatever the C library,
correctly rounded or just accurate, the bullet built at (0, 0) with firing
angle 8 has an x-velocity between -3/4 and -1/2, and a speed
`sqrt(mVelX^2 + mVelY^2)` other than 5: two `double`s whose squares add up to
25 are integers. -/
theorem Bullet_speed_not_exact :
    Cmath.rounded.accurate ∧
    ∀ M : Cmath, M.accurate →
      -(3 : ℝ) / 4 ≤ (Bullet_Bullet_double M 0 0 8).mVelX ∧
      (Bullet_Bullet_double M 0 0 8).mVelX ≤ -(1 : ℝ) / 2 ∧
      Real.sqrt ((Bullet_Bullet_double M 0 0 8).mVelX ^ 2 +
        (Bullet_Bullet_double M 0 0 8).mVelY ^ 2) ≠ (BULLET_VEL : ℝ) := by
  refine ⟨Cmath.rounded_accurate, fun M hM => ?_⟩
  obtain ⟨hv1, hv2⟩ := angle_eight_velX M hM
  refine ⟨hv1, hv2, fun h => ?_⟩
  have h5 : ((BULLET_VEL : Int) : ℝ) = 5 := by simp [BULLET_VEL]
  rw [h5] at h
  have hsq : (Bullet_Bullet_double M 0 0 8).mVelX ^ 2 +
      (Bullet_Bullet_double M 0 0 8).mVelY ^ 2 = 25 := by
    have h0 : (0 : ℝ) ≤ (Bullet_Bullet_double M 0 0 8).mVelX ^ 2 +
        (Bullet_Bullet_double M 0 0 8).mVelY ^ 2 := by positivity
    have := Real.sq_sqrt h0
    rw [h] at this
    linarith
  obtain ⟨q, hq⟩ := dyadic_speed_five (fl_dyadic _) (fl_dyadic _) hsq
  have hq2 : (Bullet_Bullet_double M 0 0 8).mVelX = (q : ℝ) := hq
  rw [hq2] at hv1 hv2
  have h1 : (-1 : ℝ) < (q : ℝ) := by linarith
  have h2 : (q : ℝ) < 0 := by linarith
  have h1z : (-1 : ℤ) < q := by exact_mod_cast h1
  have h2z : q < 0 := by exact_mod_cast h2
  omega

/-- C6, amended: for every C library whose `cos` and `sin` are within 2^-52
of the real functions, every start position and every firing angle `a` with
`|a| <= 2^1000` (so that `(a + 90) * PI` does not overflow), the bullet built
by the constructor in `double` arithmetic has a speed `sqrt(mVelX^2 + mVelY^2)`
within 2^-46 of `BULLET_VEL = 5`; `Bullet::move` leaves the velocity of any
bullet unchanged; so after any number of moves the velocity is the one of the
constructor and the speed is still within 2^-46 of 5. -/
theorem Bullet_speed_rounded (M : Cmath) (hM : M.accurate) (x y a : ℝ)
    (_ha : |a| ≤ 2 ^ 1000) :
    |Real.sqrt ((Bullet_Bullet_double M x y a).mVelX ^ 2 +
        (Bullet_Bullet_double M x y a).mVelY ^ 2) - (BULLET_VEL : ℝ)| ≤ 1 / 2 ^ 46 ∧
    (BULLET_VEL : ℝ) = 5 ∧
    (∀ b : Bullet, (b.move).2.mVelX = b.mVelX ∧ (b.move).2.mVelY = b.mVelY) ∧
    (∀ n : Nat,
      (Bullet.afterMoves n (Bullet_Bullet_double M x y a)).mVelX =
          (Bullet_Bullet_double M x y a).mVelX ∧
      (Bullet.afterMoves n (Bullet_Bullet_double M x y a)).mVelY =
          (Bullet_Bullet_double M x y a).mVelY ∧
      |Real.sqrt ((Bullet.afterMoves n (Bullet_Bullet_double M x y a)).mVelX ^ 2 +
          (Bullet.afterMoves n (Bullet_Bullet_double M x y a)).mVelY ^ 2) - 5| ≤ 1 / 2 ^ 46) := by
  have h5 : ((BULLET_VEL : Int) : ℝ) = 5 := by simp [BULLET_VEL]
  obtain ⟨C, S, hCS, hx, hy⟩ := velocity_close M hM x y a
  have hspeed := speed_close hCS hx hy
  refine ⟨by rw [h5]; exact hspeed, h5, Bullet.move_vel, fun n => ?_⟩
  obtain ⟨h1, h2⟩ := Bullet.afterMoves_vel n (Bullet_Bullet_double M x y a)
  exact ⟨h1, h2, by rw [h1, h2]; exact hspeed⟩

theorem Bullet_speed_rounded_witness :
    |Real.sqrt ((Bullet_Bullet_double Cmath.rounded 0 0 8).mVelX ^ 2 +
        (Bullet_Bullet_double Cmath.rounded 0 0 8).mVelY ^ 2) - (BULLET_VEL : ℝ)| ≤ 1 / 2 ^ 46 ∧
    (BULLET_VEL : ℝ) = 5 ∧
    (∀ b : Bullet, (b.move).2.mVelX = b.mVelX ∧ (b.move).2.mVelY = b.mVelY) ∧
    (∀ n : Nat,
      (Bullet.afterMoves n (Bullet_Bullet_double Cmath.rounded 0 0 8)).mVelX =
          (Bullet_Bullet_double Cmath.rounded 0 0 8).mVelX ∧
      (Bullet.afterMoves n (Bullet_Bullet_double Cmath.rounded 0 0 8)).mVelY =
          (Bullet_Bullet_double Cmath.rounded 0 0 8).mVelY ∧
      |Real.sqrt ((Bullet.afterMoves n (Bullet_Bullet_double Cmath.rounded 0 0 8)).mVelX ^ 2 +
          (Bullet.afterMoves n (Bullet_Bullet_double Cmath.rounded 0 0 8)).mVelY ^ 2) - 5| ≤
        1 / 2 ^ 46) :=
  Bullet_speed_rounded Cmath.rounded Cmath.rounded_accurate 0 0 8
    (by rw [abs_of_nonneg (by norm_num)]; norm_num)
/-! ### Firing angle 0 -/

theorem PI_lt_pi : PI < Real.pi := by
  have h := Real.pi_gt_d20
  unfold PI
  norm_num at h ⊢
  linarith

theorem pi_sub_PI_lt : Real.pi - PI < 4 / 10 ^ 9 := by
  have h := Real.pi_lt_d20
  unfold PI
  norm_num at h ⊢
  linarith

theorem Bullet.ctor_zero_velX (x y : ℝ) :
    (Bullet_Bullet x y 0).mVelX = Real.sin ((Real.pi - PI) / 2) * 5 := by
  have harg : ((0 : ℝ) + 90) * PI / 180 = Real.pi / 2 - (Real.pi - PI) / 2 := by ring
  simp only [Bullet_Bullet, BULLET_VEL, harg, Real.cos_pi_div_two_sub]
  norm_num

theorem Bullet.ctor_zero_velX_pos (x y : ℝ) : 0 < (Bullet_Bullet x y 0).mVelX := by
  rw [Bullet.ctor_zero_velX]
  have h1 := PI_lt_pi
  have h2 := pi_sub_PI_lt
  have hpi := Real.pi_gt_three
  have hs : 0 < Real.sin ((Real.pi - PI) / 2) :=
    Real.sin_pos_of_pos_of_lt_pi (by linarith) (by norm_num at h2; linarith)
  linarith

theorem Bullet.ctor_zero_velY_pos (x y : ℝ) : 0 < (Bullet_Bullet x y 0).mVelY := by
  have h1 := PI_lt_pi
  have hP : (0 : ℝ) < PI := by unfold PI; norm_num
  have harg : ((0 : ℝ) + 90) * PI / 180 = PI / 2 := by ring
  simp only [Bullet_Bullet, BULLET_VEL, harg]
  have hs : 0 < Real.sin (PI / 2) :=
    Real.sin_pos_of_pos_of_lt_pi (by linarith) (by linarith)
  push_cast
  linarith

/-- C7, as stated, fails: the bullet built at (0, 0) with firing angle 0 does
not have x-velocity exactly 0, because `PI` is 3.14159265 and not π. -/
theorem Bullet_angle_zero_not_straight :
    ¬ ((Bullet_Bullet 0 0 0).mVelX = 0 ∧ 0 < (Bullet_Bullet 0 0 0).mVelY) := by
  intro h
  have := Bullet.ctor_zero_velX_pos 0 0
  linarith [h.1]

/-- C7, amended: for every start position, a bullet constructed with firing
angle 0 has an x-velocity that is strictly positive and below 10^-8 (so it is
not 0), and a strictly positive y-velocity. -/
theorem Bullet_angle_zero_almost_down (x y : ℝ) :
    0 < (Bullet_Bullet x y 0).mVelX ∧ (Bullet_Bullet x y 0).mVelX < 1 / 10 ^ 8 ∧
    0 < (Bullet_Bullet x y 0).mVelY := by
  have h1 := PI_lt_pi
  have h2 := pi_sub_PI_lt
  have hpi := Real.pi_gt_three
  refine ⟨Bullet.ctor_zero_velX_pos x y, ?_, ?_⟩
  · rw [Bullet.ctor_zero_velX]
    have hs : Real.sin ((Real.pi - PI) / 2) < (Real.pi - PI) / 2 :=
      Real.sin_lt (by linarith)
    norm_num at h2 ⊢
    linarith
  · exact Bullet.ctor_zero_velY_pos x y

/-! ### A bullet falling off the bottom -/

theorem Bullet.afterMoves_eq (n : Nat) (b : Bullet) :
    Bullet.afterMoves n b =
      { b with mPosX := b.mPosX + n * b.mVelX, mPosY := b.mPosY + n * b.mVelY } := by
  induction n generalizing b with
  | zero => simp [Bullet.afterMoves]
  | succ n ih =>
    rw [Bullet.afterMoves, ih, Bullet.move_snd]
    ext <;> simp <;> ring

theorem fallingBullet_call (x : ℝ) (k : Nat) :
    ((Bullet.afterMoves k (fallingBullet x)).move).1 = true ↔
      ¬ ((-25 + (k : ℝ) * 5 + 5 + 20 < 0) ∨ (-25 + (k : ℝ) * 5 + 5 > 480) ∨
        (x + 20 < 0) ∨ (x > 540)) := by
  rw [Bullet.move_fst, Bullet.afterMoves_eq]
  simp [fallingBullet, BULLET_HEIGHT, BULLET_WIDTH, SCREEN_HEIGHT, PLAYFIELD_WIDTH,
    SCREEN_WIDTH, SCOREBOARD_WIDTH]

/-- C9, as stated, fails: for the bullet starting at (0, -25) with velocity
(0, 5) the 101st call of `Bullet::move` still returns true (it brings the
bullet to y = 480, which is not above 480). -/
theorem fallingBullet_alive_at_101 :
    ¬ ((∀ k : Nat, k < 100 → ((Bullet.afterMoves k (fallingBullet 0)).move).1 = true) ∧
        ((Bullet.afterMoves 100 (fallingBullet 0)).move).1 = false) := by
  rintro ⟨-, h⟩
  have h1 : ((Bullet.afterMoves 100 (fallingBullet 0)).move).1 = true := by
    rw [fallingBullet_call]
    norm_num
  rw [h1] at h
  exact Bool.noConfusion h

/-- C9, amended: for every x with -20 <= x <= PLAYFIELD_WIDTH, the bullet at
(x, -25) with velocity (0, 5) exits after exactly 102 ticks: the first 101
calls of `Bullet::move` return true, and the 102nd call, which brings it to
y = 485 > 480, is the first to return false. -/
theorem fallingBullet_exits_at_102 (x : ℝ) (hlo : -20 ≤ x) (hhi : x ≤ (PLAYFIELD_WIDTH : ℝ)) :
    (∀ k : Nat, k < 101 → ((Bullet.afterMoves k (fallingBullet x)).move).1 = true) ∧
    ((Bullet.afterMoves 101 (fallingBullet x)).move).1 = false ∧
    ((Bullet.afterMoves 101 (fallingBullet x)).move).2.mPosY = 485 := by
  have hhi2 : x ≤ 540 := by
    simpa [PLAYFIELD_WIDTH, SCREEN_WIDTH, SCOREBOARD_WIDTH] using hhi
  refine ⟨?_, ?_, ?_⟩
  · intro k hk
    rw [fallingBullet_call]
    have hk2 : (k : ℝ) ≤ 100 := by exact_mod_cast Nat.lt_succ_iff.mp hk
    have hk0 : (0 : ℝ) ≤ k := Nat.cast_nonneg k
    intro h
    rcases h with h | h | h | h <;> linarith
  · have h := fallingBullet_call x 101
    rw [← Bool.not_eq_true, h]
    norm_num
  · rw [Bullet.move_snd, Bullet.afterMoves_eq]
    simp [fallingBullet]
    norm_num

theorem fallingBullet_exits_at_102_witness :
    (∀ k : Nat, k < 101 → ((Bullet.afterMoves k (fallingBullet 0)).move).1 = true) ∧
    ((Bullet.afterMoves 101 (fallingBullet 0)).move).1 = false ∧
    ((Bullet.afterMoves 101 (fallingBullet 0)).move).2.mPosY = 485 :=
  fallingBullet_exits_at_102 0 (by norm_num)
    (by simp [PLAYFIELD_WIDTH, SCREEN_WIDTH, SCOREBOARD_WIDTH])


/-! ### The fan of an enemy -/

theorem Enemy.shootLoop_exact (e : Enemy) (n : Nat) (a s : ℤ) (hn : 0 < n)
    (hs : (n : ℤ) * s = 360) (ha : e.mAngle = (a : ℝ)) (hstep : e.mBulletAngle = (s : ℝ))
    (hrange : |a| ≤ 2 ^ 52) :
    ∀ (d j : Nat), j + d = n → ∀ (fuel : Nat), d < fuel → ∀ (acc : List Bullet),
      Enemy.shootLoop e fuel ((a : ℝ) + (j : ℝ) * (s : ℝ)) acc =
        Except.ok (acc ++ (List.range' j d).map
          (fun (m : Nat) => Bullet_Bullet e.mPosX e.mPosY ((a : ℝ) + (m : ℝ) * (s : ℝ)))) := by
  have hspos : 0 < s := by
    by_contra hcon
    push_neg at hcon
    have : (n : ℤ) * s ≤ 0 := mul_nonpos_of_nonneg_of_nonpos (by omega) hcon
    omega
  have hs360 : s ≤ 360 := by
    have : s ≤ (n : ℤ) * s := le_mul_of_one_le_left hspos.le (by omega)
    omega
  rw [abs_le] at hrange
  have hbound : fl (e.mAngle + 360) = ((a + 360 : ℤ) : ℝ) := by
    rw [ha, ← fl_intCast (a + 360) (by rw [abs_lt]; constructor <;> omega)]
    push_cast
    rfl
  intro d
  induction d with
  | zero =>
    intro j hj fuel hfuel acc
    obtain ⟨fuel, rfl⟩ : ∃ k, fuel = k + 1 := ⟨fuel - 1, by omega⟩
    have hjn : j = n := by omega
    subst hjn
    have hi : (a : ℝ) + (j : ℝ) * (s : ℝ) = ((a + 360 : ℤ) : ℝ) := by
      rw [← hs]; push_cast; ring
    rw [Enemy.shootLoop, hbound, hi, if_neg (lt_irrefl _)]
    simp
  | succ d ih =>
    intro j hj fuel hfuel acc
    obtain ⟨fuel, rfl⟩ : ∃ k, fuel = k + 1 := ⟨fuel - 1, by omega⟩
    have hjs : (j : ℤ) * s < 360 := by
      rw [← hs]
      exact mul_lt_mul_of_pos_right (by omega) hspos
    have hjs0 : 0 ≤ (j : ℤ) * s := mul_nonneg (by omega) hspos.le
    have hi : (a : ℝ) + (j : ℝ) * (s : ℝ) = ((a + j * s : ℤ) : ℝ) := by push_cast; ring
    have hlt : (a : ℝ) + (j : ℝ) * (s : ℝ) < fl (e.mAngle + 360) := by
      rw [hbound, hi]
      exact_mod_cast (show a + j * s < a + 360 by omega)
    have hnext : fl ((a : ℝ) + (j : ℝ) * (s : ℝ) + e.mBulletAngle) =
        (a : ℝ) + ((j + 1 : Nat) : ℝ) * (s : ℝ) := by
      have e1 : (a : ℝ) + (j : ℝ) * (s : ℝ) + e.mBulletAngle = ((a + j * s + s : ℤ) : ℝ) := by
        rw [hstep]; push_cast; ring
      rw [e1, fl_intCast _ (by rw [abs_lt]; constructor <;> omega)]
      push_cast
      ring
    rw [Enemy.shootLoop, if_pos hlt, hnext, ih (j + 1) (by omega) fuel (by omega)]
    simp [List.range'_succ]

theorem fanSpec_length (e : Enemy) (n : Nat) : (fanSpec e n).length = n := by
  simp [fanSpec]

theorem Enemy.shoot_fan (e : Enemy) (n : Nat) (a s : ℤ) (hn : 0 < n)
    (hs : (n : ℤ) * s = 360) (ha : e.mAngle = (a : ℝ)) (hstep : e.mBulletAngle = (s : ℝ))
    (hrange : |a| ≤ 2 ^ 52) (hk : e.mBulletFrequency ≠ 0)
    (fuel : Nat) (hfuel : n < fuel) (frame : Int)
    (hov : ¬ (frame = -2147483648 ∧ e.mBulletFrequency = -1)) (gBullets : List Bullet) :
    Enemy.shoot e fuel frame gBullets =
      Except.ok (if Int.tmod frame e.mBulletFrequency = 0 then gBullets ++ fanSpec e n
        else gBullets) := by
  unfold Enemy.shoot
  rw [if_neg hk, if_neg hov]
  split_ifs with h
  · have := Enemy.shootLoop_exact e n a s hn hs ha hstep hrange n 0 (by omega) fuel hfuel gBullets
    simp only [Nat.cast_zero, zero_mul, add_zero] at this
    rw [ha, this, fanSpec, List.range_eq_range']
    congr 2
    apply List.map_congr_left
    intro m _
    have hsR : (s : ℝ) = 360 / (n : ℝ) := by
      have hn0 : (n : ℝ) ≠ 0 := by exact_mod_cast (Nat.pos_iff_ne_zero.mp hn)
      have : ((n : ℤ) : ℝ) * (s : ℝ) = 360 := by exact_mod_cast hs
      field_simp
      rw [mul_comm]
      exact_mod_cast this
    rw [ha, hsR]
  · rfl

theorem Enemy_Enemy_ok (n : Nat) (hn : 0 < n) (bf : Int) (hbf : bf ≠ 0) (sOffsetX : ℝ)
    (path : ℝ → ℝ → ℝ → ℝ → ℝ × ℝ × ℝ) (uPosX uPosY : ℝ) :
    Enemy_Enemy (n : Int) bf sOffsetX path uPosX uPosY =
      Except.ok
        { mPosX := uPosX
          mPosY := uPosY
          mOffsetX := sOffsetX
          mOffsetY := ((-ENEMY_HEIGHT : Int) : ℝ)
          mAngle := 0
          mBullets := (n : ℝ)
          mBulletAngle := fl (360 / (n : ℝ))
          mBulletFrequency := Int.tdiv 60 bf
          mPath := path } := by
  have hn0 : (n : ℝ) ≠ 0 := by exact_mod_cast (Nat.pos_iff_ne_zero.mp hn)
  simp [Enemy_Enemy, hn0, hbf]

theorem Enemy.shootLoop_diverges (e : Enemy) (ha : e.mAngle = 0)
    (hstep : e.mBulletAngle ≤ 0) :
    ∀ (fuel : Nat) (i : ℝ) (acc : List Bullet), i ≤ 0 →
      Enemy.shootLoop e fuel i acc = Except.error Fault.outOfFuel := by
  have hbound : fl (e.mAngle + 360) = 360 := by
    rw [ha, zero_add]
    have := fl_intCast 360 (by norm_num)
    exact_mod_cast this
  intro fuel
  induction fuel with
  | zero => intro i acc _; rfl
  | succ fuel ih =>
    intro i acc hi
    rw [Enemy.shootLoop, hbound, if_pos (by linarith)]
    apply ih
    have := fl_mono (show i + e.mBulletAngle ≤ 0 by linarith)
    rwa [fl_zero] at this

theorem Enemy.shootFrames_length (e : Enemy) (n : Nat) (a s : ℤ) (hn : 0 < n)
    (hs : (n : ℤ) * s = 360) (ha : e.mAngle = (a : ℝ)) (hstep : e.mBulletAngle = (s : ℝ))
    (hrange : |a| ≤ 2 ^ 52) (hk : e.mBulletFrequency ≠ 0) (hk1 : e.mBulletFrequency ≠ -1)
    (fuel : Nat) (hfuel : n < fuel) :
    ∀ (fs : List Int) (gBullets : List Bullet),
      ∃ out, Enemy.shootFrames e fuel fs gBullets = Except.ok out ∧
        out.length = gBullets.length +
          n * (fs.filter (fun f => decide (Int.tmod f e.mBulletFrequency = 0))).length := by
  intro fs
  induction fs with
  | nil => intro gBullets; exact ⟨gBullets, rfl, by simp⟩
  | cons f fs ih =>
    intro gBullets
    rw [Enemy.shootFrames, Enemy.shoot_fan e n a s hn hs ha hstep hrange hk fuel hfuel f
      (fun h => hk1 h.2)]
    by_cases h : Int.tmod f e.mBulletFrequency = 0
    · obtain ⟨out, hout, hlen⟩ := ih (gBullets ++ fanSpec e n)
      refine ⟨out, by simpa [h] using hout, ?_⟩
      rw [hlen]
      simp [h, fanSpec_length]
      ring
    · obtain ⟨out, hout, hlen⟩ := ih gBullets
      refine ⟨out, by simpa [h] using hout, ?_⟩
      rw [hlen]
      simp [h]

/-- The fan loop of a freshly constructed enemy ends: with `mAngle = 0` and a
step of at least `2^-23`, every turn moves the loop variable up by at least
half a step. -/
theorem Enemy.shootLoop_ends (e : Enemy) (ha : e.mAngle = 0)
    (hs1 : 1 / 2 ^ 23 ≤ e.mBulletAngle) (hs2 : e.mBulletAngle ≤ 360) :
    ∀ (k : Nat) (i : ℝ) (acc : List Bullet), 0 ≤ i →
      360 - i < (k : ℝ) * (e.mBulletAngle / 2) →
      ∃ app, Enemy.shootLoop e (k + 1) i acc = Except.ok (acc ++ app) := by
  have hbound : fl (e.mAngle + 360) = 360 := by
    rw [ha, zero_add]
    have := fl_intCast 360 (by norm_num)
    exact_mod_cast this
  intro k
  induction k with
  | zero =>
    intro i acc _ hk
    simp only [Nat.cast_zero, zero_mul] at hk
    refine ⟨[], ?_⟩
    rw [Enemy.shootLoop, hbound, if_neg (by linarith)]
    simp
  | succ k ih =>
    intro i acc hi0 hk
    by_cases hlt : i < 360
    · have hsum : |i + e.mBulletAngle| ≤ 2 ^ 10 := by
        rw [abs_le]
        have : (0 : ℝ) < 1 / 2 ^ 23 := by positivity
        constructor <;> norm_num <;> linarith
      have hfl := fl_err_le hsum (by norm_num)
      rw [abs_le] at hfl
      have hstepup : i + e.mBulletAngle / 2 ≤ fl (i + e.mBulletAngle) := by
        have : (2 : ℝ) ^ 10 / 2 ^ 53 ≤ 1 / 2 ^ 23 / 2 := by norm_num
        linarith [hfl.1]
      have hi1 : 0 ≤ fl (i + e.mBulletAngle) := by
        have : (0 : ℝ) < 1 / 2 ^ 23 := by positivity
        linarith
      have hk1 : 360 - fl (i + e.mBulletAngle) < (k : ℝ) * (e.mBulletAngle / 2) := by
        push_cast at hk
        linarith
      obtain ⟨app, happ⟩ := ih (fl (i + e.mBulletAngle))
        (acc ++ [Bullet_Bullet e.mPosX e.mPosY i]) hi1 hk1
      refine ⟨Bullet_Bullet e.mPosX e.mPosY i :: app, ?_⟩
      rw [Enemy.shootLoop, hbound, if_pos hlt, happ]
      simp
    · refine ⟨[], ?_⟩
      rw [Enemy.shootLoop, hbound, if_neg hlt]
      simp

/-- The rounded step `fl (360 / n)` of an enemy with `1 ≤ n ≤ INT_MAX` bullets. -/
theorem step_bounds (n : Nat) (hn1 : 1 ≤ n) (hn2 : n ≤ 2147483647) :
    1 / 2 ^ 23 ≤ fl (360 / (n : ℝ)) ∧ fl (360 / (n : ℝ)) ≤ 360 ∧
    (360 : ℝ) < ((2 * n + 1 : Nat) : ℝ) * (fl (360 / (n : ℝ)) / 2) := by
  have hnR1 : (1 : ℝ) ≤ n := by exact_mod_cast hn1
  have hnR2 : (n : ℝ) ≤ 2147483647 := by exact_mod_cast hn2
  have hnpos : (0 : ℝ) < n := by linarith
  have hs0 : (0 : ℝ) < 360 / (n : ℝ) := by positivity
  have hs1 : (360 : ℝ) / (n : ℝ) ≤ 360 := by
    rw [div_le_iff₀ hnpos]; nlinarith
  have hs2 : (1 / 2 ^ 23 : ℝ) ≤ 360 / (n : ℝ) := by
    rw [le_div_iff₀ hnpos]
    norm_num
    linarith
  have hns : (n : ℝ) * (360 / (n : ℝ)) = 360 := by field_simp
  have e23 : fl ((1 : ℝ) / 2 ^ 23) = 1 / 2 ^ 23 :=
    fl_exact_of 1 (-23) (by norm_num) (by norm_num) (by norm_num)
  have e360 : fl (360 : ℝ) = 360 := by
    have := fl_intCast 360 (by norm_num)
    exact_mod_cast this
  have hnorm : (2 : ℝ) ^ (-1022 : ℤ) ≤ |360 / (n : ℝ)| := by
    rw [abs_of_pos hs0]
    have : (2 : ℝ) ^ (-1022 : ℤ) ≤ 1 / 2 ^ 23 := by
      rw [show (2 : ℝ) ^ (-1022 : ℤ) = 1 / 2 ^ 1022 by norm_num]
      apply one_div_le_one_div_of_le (by positivity)
      exact pow_le_pow_right₀ (by norm_num) (by norm_num)
    exact le_trans this hs2
  have herr := fl_rel_err hnorm
  rw [abs_of_pos hs0, abs_le] at herr
  refine ⟨?_, ?_, ?_⟩
  · exact le_trans (le_of_eq e23.symm) (fl_mono hs2)
  · exact le_trans (fl_mono hs1) (le_of_eq e360)
  · push_cast
    -- (2n + 1) (s/2) with s ≥ (360/n) (1 - 2^-53)
    have h1 : (360 : ℝ) / (n : ℝ) * (1 - 1 / 2 ^ 53) ≤ fl (360 / (n : ℝ)) := by
      linarith [herr.1]
    have h2 : (0 : ℝ) ≤ 2 * (n : ℝ) + 1 := by linarith
    have h3 : (2 * (n : ℝ) + 1) * (360 / (n : ℝ) * (1 - 1 / 2 ^ 53) / 2)
        ≤ (2 * (n : ℝ) + 1) * (fl (360 / (n : ℝ)) / 2) :=
      mul_le_mul_of_nonneg_left (by linarith) h2
    have h4 : (2 * (n : ℝ) + 1) * (360 / (n : ℝ) * (1 - 1 / 2 ^ 53) / 2)
        = (360 + 180 / (n : ℝ)) * (1 - 1 / 2 ^ 53) := by
      field_simp
      ring
    have h5 : (180 : ℝ) / 2147483647 ≤ 180 / (n : ℝ) :=
      div_le_div_of_nonneg_left (by norm_num) hnpos hnR2
    have h6 : (180 : ℝ) / (n : ℝ) ≤ 180 := by
      rw [div_le_iff₀ hnpos]; nlinarith
    have h7 : (360 : ℝ) < (360 + 180 / (n : ℝ)) * (1 - 1 / 2 ^ 53) := by
      have : (360 + 180 / (n : ℝ)) * (1 - 1 / 2 ^ 53)
          = 360 + 180 / (n : ℝ) - (360 + 180 / (n : ℝ)) / 2 ^ 53 := by ring
      rw [this]
      have : (360 + 180 / (n : ℝ)) / 2 ^ 53 ≤ 540 / 2 ^ 53 :=
        div_le_div_of_nonneg_right (by linarith) (by positivity)
      have : (540 : ℝ) / 2 ^ 53 < 180 / 2147483647 := by norm_num
      linarith
    linarith

theorem Enemy.shootLoop_step (e : Enemy) (fuel : Nat) (i : ℝ) (acc : List Bullet)
    {bound step next : ℝ} (hB : fl (e.mAngle + 360) = bound) (hs : e.mBulletAngle = step)
    (hlt : i < bound) (hnext : fl (i + step) = next) :
    Enemy.shootLoop e (fuel + 1) i acc =
      Enemy.shootLoop e fuel next (acc ++ [Bullet_Bullet e.mPosX e.mPosY i]) := by
  rw [Enemy.shootLoop, hB, if_pos hlt, hs, hnext]

theorem Enemy.shootLoop_stop (e : Enemy) (fuel : Nat) (i : ℝ) (acc : List Bullet)
    {bound : ℝ} (hB : fl (e.mAngle + 360) = bound) (hge : ¬ i < bound) :
    Enemy.shootLoop e (fuel + 1) i acc = Except.ok acc := by
  rw [Enemy.shootLoop, hB, if_neg hge]

theorem Enemy_5_10 (sOffsetX uPosX uPosY : ℝ) :
    ∃ e, Enemy_Enemy 5 10 sOffsetX pathing uPosX uPosY = Except.ok e ∧
      e.mBulletFrequency = 6 ∧ e.mAngle = ((0 : ℤ) : ℝ) ∧ e.mBulletAngle = ((72 : ℤ) : ℝ) := by
  refine ⟨_, Enemy_Enemy_ok 5 (by decide) 10 (by decide) sOffsetX pathing uPosX uPosY,
    (by decide : Int.tdiv 60 10 = 6), by simp, ?_⟩
  have h72 : (360 : ℝ) / ((5 : Nat) : ℝ) = ((72 : ℤ) : ℝ) := by norm_num
  show fl (360 / ((5 : Nat) : ℝ)) = ((72 : ℤ) : ℝ)
  rw [h72]
  exact fl_intCast 72 (by norm_num)

theorem tmod_six (f : Nat) : Int.tmod (f : Int) 6 = 0 ↔ f % 6 = 0 := by
  rw [Int.tmod_eq_emod (by omega) (by decide)]
  omega

theorem fire_frames_count :
    (firstSixtyFrames.filter (fun f => decide (Int.tmod f 6 = 0))).length = 10 := by
  decide

/-- C8, as stated, fails: the enemy constructed with `bullets = 5` and
`bulletFrequency = 10` fires on frame 6 (5 bullets appended), does not fire on
frame 10, and over the frames 0..59 appends 50 bullets, not 30. -/
theorem Enemy_5_10_not_every_10_frames :
    ∃ e, Enemy_Enemy 5 10 0 pathing 0 0 = Except.ok e ∧
      e.mBulletFrequency = 6 ∧
      Enemy.shoot e 6 6 [] = Except.ok (fanSpec e 5) ∧ (fanSpec e 5).length = 5 ∧
      Enemy.shoot e 6 10 [] = Except.ok [] ∧
      ∃ out, Enemy.shootFrames e 6 firstSixtyFrames [] = Except.ok out ∧ out.length = 50 := by
  obtain ⟨e, he, hk, ha, hstep⟩ := Enemy_5_10 0 0 0
  have hk0 : e.mBulletFrequency ≠ 0 := by rw [hk]; decide
  have hk1 : e.mBulletFrequency ≠ -1 := by rw [hk]; decide
  refine ⟨e, he, hk, ?_, fanSpec_length e 5, ?_, ?_⟩
  · rw [Enemy.shoot_fan e 5 0 72 (by decide) (by decide) ha hstep (by decide) hk0 6 (by decide) 6
      (fun h => hk1 h.2), hk, if_pos (by decide)]
    rfl
  · rw [Enemy.shoot_fan e 5 0 72 (by decide) (by decide) ha hstep (by decide) hk0 6 (by decide) 10
      (fun h => hk1 h.2), hk, if_neg (by decide)]
  · obtain ⟨out, hout, hlen⟩ := Enemy.shootFrames_length e 5 0 72 (by decide) (by decide) ha
      hstep (by decide) hk0 hk1 6 (by decide) firstSixtyFrames []
    refine ⟨out, hout, ?_⟩
    rw [hlen, hk, fire_frames_count]
    rfl

/-- C8, amended: for an enemy constructed with `bullets = 5` and
`bulletFrequency = 10` the firing interval is `60 / 10 = 6` frames, so calling
`Enemy::shoot(f)` once for each frame counter f = 0, 1, ..., 59 produces
exactly 10 fire events, on frames 0, 6, 12, ..., 54, each appending 5 bullets,
and 50 bullets are appended in total. -/
theorem Enemy_5_10_fires_every_6_frames (sOffsetX uPosX uPosY : ℝ) (fuel : Nat)
    (hfuel : 5 < fuel) (gBullets : List Bullet) :
    ∃ e, Enemy_Enemy 5 10 sOffsetX pathing uPosX uPosY = Except.ok e ∧
      (∀ f : Nat, f < 60 → ∀ bs : List Bullet,
        Enemy.shoot e fuel (f : Int) bs =
          Except.ok (if f % 6 = 0 then bs ++ fanSpec e 5 else bs)) ∧
      (fanSpec e 5).length = 5 ∧
      (List.range 60).filter (fun f => decide (f % 6 = 0)) =
        [0, 6, 12, 18, 24, 30, 36, 42, 48, 54] ∧
      ∃ out, Enemy.shootFrames e fuel firstSixtyFrames gBullets = Except.ok out ∧
        out.length = gBullets.length + 50 := by
  obtain ⟨e, he, hk, ha, hstep⟩ := Enemy_5_10 sOffsetX uPosX uPosY
  have hk0 : e.mBulletFrequency ≠ 0 := by rw [hk]; decide
  have hk1 : e.mBulletFrequency ≠ -1 := by rw [hk]; decide
  refine ⟨e, he, ?_, fanSpec_length e 5, by decide, ?_⟩
  · intro f _ bs
    rw [Enemy.shoot_fan e 5 0 72 (by decide) (by decide) ha hstep (by decide) hk0 fuel hfuel f
      (fun h => hk1 h.2), hk]
    by_cases h : f % 6 = 0
    · rw [if_pos h, if_pos ((tmod_six f).mpr h)]
    · rw [if_neg h, if_neg (fun h2 => h ((tmod_six f).mp h2))]
  · obtain ⟨out, hout, hlen⟩ := Enemy.shootFrames_length e 5 0 72 (by decide) (by decide) ha
      hstep (by decide) hk0 hk1 fuel hfuel firstSixtyFrames gBullets
    refine ⟨out, hout, ?_⟩
    rw [hlen, hk, fire_frames_count]

theorem Enemy_5_10_fires_every_6_frames_witness :
    ∃ e, Enemy_Enemy 5 10 250 pathing 0 0 = Except.ok e ∧
      (∀ f : Nat, f < 60 → ∀ bs : List Bullet,
        Enemy.shoot e 6 (f : Int) bs =
          Except.ok (if f % 6 = 0 then bs ++ fanSpec e 5 else bs)) ∧
      (fanSpec e 5).length = 5 ∧
      (List.range 60).filter (fun f => decide (f % 6 = 0)) =
        [0, 6, 12, 18, 24, 30, 36, 42, 48, 54] ∧
      ∃ out, Enemy.shootFrames e 6 firstSixtyFrames [] = Except.ok out ∧
        out.length = ([] : List Bullet).length + 50 :=
  Enemy_5_10_fires_every_6_frames 250 0 0 6 (by decide) []


/-! ### Faults of the enemy operations -/

theorem tdiv_sixty (bf : Int) (h0 : bf ≠ 0) (hlo : -60 ≤ bf) (hhi : bf ≤ 60) :
    Int.tdiv 60 bf ≠ 0 ∧ (Int.tdiv 60 bf = -1 → bf ≤ -31) := by
  interval_cases bf <;> first | exact absurd rfl h0 | decide

theorem Enemy.shootLoop_infinite_step (e : Enemy) (ha : e.mAngle = 0)
    (hstep : e.mBulletAngle = DBL_INFINITY) (fuel : Nat) (acc : List Bullet) :
    Enemy.shootLoop e (fuel + 2) 0 acc =
      Except.ok (acc ++ [Bullet_Bullet e.mPosX e.mPosY 0]) := by
  have hbound : fl (e.mAngle + 360) = 360 := by
    rw [ha, zero_add]
    have := fl_intCast 360 (by norm_num)
    exact_mod_cast this
  have hnext : fl (0 + DBL_INFINITY) = (2 : ℝ) ^ (1024 : ℤ) := by
    rw [zero_add, DBL_INFINITY]
    have := fl_two_pow 1024 (by norm_num)
    exact_mod_cast this
  rw [Enemy.shootLoop_step e _ _ _ hbound hstep (by norm_num) hnext,
    Enemy.shootLoop_stop e _ _ _ hbound]
  have : (360 : ℝ) ≤ (2 : ℝ) ^ (1024 : ℤ) := by
    have h : (2 : ℝ) ^ (9 : ℤ) ≤ (2 : ℝ) ^ (1024 : ℤ) :=
      zpow_le_zpow_right₀ (by norm_num) (by norm_num)
    have h9 : (360 : ℝ) ≤ (2 : ℝ) ^ (9 : ℤ) := by norm_num
    exact le_trans h9 h
  exact not_lt.mpr this

/-- C10, as stated, fails: `bulletFrequency = 0` makes the constructor divide
by zero in `60/bulletFrequency`; `bulletFrequency = 61` gives
`mBulletFrequency = 0`, so that `frame % mBulletFrequency` is a remainder by
zero; `bullets = -1` gives `mBulletAngle = -360`, and the fan loop on frame 0
does not end with any amount of fuel; `bulletFrequency = -60` gives
`mBulletFrequency = -1`, and `frame % mBulletFrequency` has no result when
`frame` is `INT_MIN`. -/
theorem Enemy_operations_can_fault :
    constructAndShoot 5 0 0 0 0 6 0 [] = Except.error Fault.intDivByZero ∧
    constructAndShoot 5 61 0 0 0 6 0 [] = Except.error Fault.intModByZero ∧
    (∀ fuel : Nat, constructAndShoot (-1) 10 0 0 0 fuel 0 [] = Except.error Fault.outOfFuel) ∧
    constructAndShoot 5 (-60) 0 0 0 6 (-2147483648) [] = Except.error Fault.intOverflow := by
  refine ⟨?_, ?_, ?_, ?_⟩
  · simp [constructAndShoot, Enemy_Enemy]
  · have h : Int.tdiv 60 61 = 0 := by decide
    simp [constructAndShoot, Enemy_Enemy, Enemy.shoot, h]
  · intro fuel
    have h : Int.tdiv 60 10 = 6 := by decide
    have hfl : fl (-360) = -360 := by
      have := fl_intCast (-360) (by norm_num)
      exact_mod_cast this
    simp only [constructAndShoot, Enemy_Enemy]
    norm_num
    simp only [Enemy.shoot, h]
    rw [if_neg (by decide), if_neg (by decide), if_pos (by decide)]
    exact Enemy.shootLoop_diverges _ rfl (by simp only [hfl]; norm_num) fuel _ _ (le_refl _)
  · have h : Int.tdiv 60 (-60) = -1 := by decide
    simp [constructAndShoot, Enemy_Enemy, Enemy.shoot, h]

/-- C10, amended: for every `bullets` in 0..2147483647, every
`bulletFrequency` in -60..60 other than 0 and every frame counter, the frame
counter `INT_MIN` with `bulletFrequency <= -31` apart, constructing an Enemy
and then calling `Enemy::shoot(frame)` returns: no division or remainder is
by zero or overflows, and the fan loop ends (`2 * bullets + 2` units of fuel
are enough), leaving the old bullet collection followed by the appended
bullets. -/
theorem Enemy_operations_total (bullets bf : Int) (hb0 : 0 ≤ bullets)
    (hb1 : bullets ≤ 2147483647) (hbf : bf ≠ 0) (hlo : -60 ≤ bf) (hhi : bf ≤ 60) (frame : Int)
    (hframe : ¬ (frame = -2147483648 ∧ bf ≤ -31)) (sOffsetX uPosX uPosY : ℝ) (fuel : Nat)
    (hfuel : 2 * bullets.toNat + 2 ≤ fuel) (gBullets : List Bullet) :
    ∃ appended, constructAndShoot bullets bf sOffsetX uPosX uPosY fuel frame gBullets =
        Except.ok (gBullets ++ appended) := by
  obtain ⟨hk0, hk1⟩ := tdiv_sixty bf hbf hlo hhi
  lift bullets to Nat using hb0 with n
  simp only [Int.toNat_ofNat] at hfuel
  have hov : ¬ (frame = -2147483648 ∧ Int.tdiv 60 bf = -1) := fun h => hframe ⟨h.1, hk1 h.2⟩
  simp only [constructAndShoot, Enemy_Enemy, if_neg hbf, Enemy.shoot, if_neg hk0, if_neg hov]
  by_cases hfire : Int.tmod frame (Int.tdiv 60 bf) = 0
  · rw [if_pos hfire]
    obtain ⟨k, rfl⟩ : ∃ k, fuel = k + 1 := ⟨fuel - 1, by omega⟩
    rcases Nat.eq_zero_or_pos n with hn | hn
    · subst hn
      obtain ⟨k2, rfl⟩ : ∃ k2, k = k2 + 1 := ⟨k - 1, by omega⟩
      exact ⟨_, Enemy.shootLoop_infinite_step _ rfl (by simp) k2 gBullets⟩
    · have hn0 : (n : ℝ) ≠ 0 := by
        have : (0 : ℝ) < (n : ℝ) := by exact_mod_cast hn
        exact this.ne'
      have hcast : ((n : Int) : ℝ) = (n : ℝ) := by norm_cast
      obtain ⟨hs1, hs2, hs3⟩ := step_bounds n hn (by exact_mod_cast hb1)
      refine Enemy.shootLoop_ends _ rfl (by simp only [hcast, if_neg hn0]; exact hs1)
        (by simp only [hcast, if_neg hn0]; exact hs2) k 0 gBullets (le_refl _) ?_
      simp only [hcast, if_neg hn0, sub_zero]
      have hkn : ((2 * n + 1 : Nat) : ℝ) ≤ (k : ℝ) := by exact_mod_cast (by omega : 2 * n + 1 ≤ k)
      have hpos : (0 : ℝ) ≤ fl (360 / (n : ℝ)) / 2 := by
        have : (0 : ℝ) < 1 / 2 ^ 23 := by positivity
        linarith
      exact lt_of_lt_of_le hs3 (mul_le_mul_of_nonneg_right hkn hpos)
  · rw [if_neg hfire]
    exact ⟨[], by simp⟩

theorem Enemy_operations_total_witness :
    ∃ appended, constructAndShoot 5 (-60) 250 0 0 12 (-12) [] = Except.ok ([] ++ appended) :=
  Enemy_operations_total 5 (-60) (by decide) (by decide) (by decide) (by decide) (by decide)
    (-12) (by decide) 250 0 0 12 (by decide) []
/-! ### Expiry of an enemy -/

theorem Enemy.move_state (e : Enemy) (ticks : Nat) :
    (e.move ticks).2 =
      { e with
        mPosX := (e.mPath e.mPosX e.mPosY e.mAngle (ticks : ℝ)).1 + e.mOffsetX
        mPosY := (e.mPath e.mPosX e.mPosY e.mAngle (ticks : ℝ)).2.1 + e.mOffsetY
        mAngle := (e.mPath e.mPosX e.mPosY e.mAngle (ticks : ℝ)).2.2 } := by
  simp only [Enemy.move]
  split_ifs <;> rfl

theorem Enemy.move_flag (e : Enemy) (ticks : Nat) :
    (e.move ticks).1 = false ↔
      ((e.move ticks).2.mPosY + ENEMY_HEIGHT < 0) ∨ ((e.move ticks).2.mPosX + ENEMY_WIDTH < 0) ∨
        ((e.move ticks).2.mPosX > PLAYFIELD_WIDTH) := by
  rw [Enemy.move_state]
  simp only [Enemy.move]
  split_ifs with h <;> simp [h]

/-- C4, as stated, fails: an enemy built by the constructor with offset 100
and a climbing path is, after 1000 ms, at (100, -120): not off the left, not
off the right, not below the bottom, yet `Enemy::move` returns false, because
the position is above the top of the screen. -/
theorem Enemy_expires_above_top :
    ∃ e, Enemy_Enemy 5 10 100 upwardPath 0 0 = Except.ok e ∧
      (e.move 1000).1 = false ∧
      (e.move 1000).2.mPosX = 100 ∧ (e.move 1000).2.mPosY = -120 ∧
      ¬ ((e.move 1000).2.mPosX + ENEMY_WIDTH < 0) ∧
      ¬ ((e.move 1000).2.mPosX > PLAYFIELD_WIDTH) ∧
      ¬ ((e.move 1000).2.mPosY > SCREEN_HEIGHT) := by
  obtain ⟨e, he, hp, hox, hoy⟩ : ∃ e, Enemy_Enemy 5 10 100 upwardPath 0 0 = Except.ok e ∧
      e.mPath = upwardPath ∧ e.mOffsetX = 100 ∧ e.mOffsetY = ((-ENEMY_HEIGHT : Int) : ℝ) :=
    ⟨_, Enemy_Enemy_ok 5 (by decide) 10 (by decide) 100 upwardPath 0 0, rfl, rfl, rfl⟩
  have hpos : (e.move 1000).2.mPosX = 100 ∧ (e.move 1000).2.mPosY = -120 := by
    rw [Enemy.move_state]
    simp only [hp, hox, hoy, upwardPath, ENEMY_HEIGHT]
    norm_num
  obtain ⟨h1, h2⟩ := hpos
  refine ⟨e, he, ?_⟩
  refine ⟨?_, h1, h2, ?_, ?_, ?_⟩
  · rw [Enemy.move_flag, h1, h2]
    simp [ENEMY_HEIGHT]
    norm_num
  · rw [h1]; simp [ENEMY_WIDTH]; norm_num
  · rw [h1]; simp [PLAYFIELD_WIDTH, SCREEN_WIDTH, SCOREBOARD_WIDTH]; norm_num
  · rw [h2]; simp [SCREEN_HEIGHT]; norm_num

/-- C4, amended: for every enemy state, path and timer value, `Enemy::move`
returns false whenever the updated position is off the left of the playfield
(`mPosX + ENEMY_WIDTH < 0`), off the right (`mPosX > PLAYFIELD_WIDTH`) or above
the top of the screen (`mPosY + ENEMY_HEIGHT < 0`), and returns true whenever
the updated position is none of these and not below the screen bottom
(`mPosY <= SCREEN_HEIGHT`). -/
theorem Enemy_move_expiry (e : Enemy) (ticks : Nat) :
    ((((e.move ticks).2.mPosX + ENEMY_WIDTH < 0) ∨ ((e.move ticks).2.mPosX > PLAYFIELD_WIDTH) ∨
        ((e.move ticks).2.mPosY + ENEMY_HEIGHT < 0)) → (e.move ticks).1 = false) ∧
    ((¬ ((e.move ticks).2.mPosX + ENEMY_WIDTH < 0) ∧ ¬ ((e.move ticks).2.mPosX > PLAYFIELD_WIDTH) ∧
        ¬ ((e.move ticks).2.mPosY + ENEMY_HEIGHT < 0) ∧
        (e.move ticks).2.mPosY ≤ SCREEN_HEIGHT) → (e.move ticks).1 = true) := by
  constructor
  · intro h
    rw [Enemy.move_flag]
    tauto
  · rintro ⟨h1, h2, h3, -⟩
    rw [← Bool.not_eq_false, Enemy.move_flag]
    tauto

/-! ### The player stays in the clamped region -/

theorem Player.move_inBounds (p : Player) (e : SDL_Event) (h : p.inBounds) :
    (p.move e).inBounds := by
  obtain ⟨hx0, hx1, hy0, hy1⟩ := h
  simp only [Player.inBounds, PLAYFIELD_WIDTH, SCREEN_WIDTH, SCOREBOARD_WIDTH, PLAYER_WIDTH,
    SCREEN_HEIGHT, PLAYER_HEIGHT, Player.move] at *
  norm_num at hx1 hy1 ⊢
  split_ifs <;>
    (try dsimp only) <;>
    refine ⟨?_, ?_, ?_, ?_⟩ <;>
    first
      | assumption
      | exact_mod_cast (show (0 : Int) ≤ e.motionX by omega)
      | exact_mod_cast (show (0 : Int) ≤ e.motionY by omega)
      | exact_mod_cast (show e.motionX ≤ 520 by omega)
      | exact_mod_cast (show e.motionY ≤ 460 by omega)
      | norm_num

/-- C5: the initial state of the player is (260, 230) and lies in the clamped
region `0 <= mPosX <= PLAYFIELD_WIDTH - PLAYER_WIDTH = 520`,
`0 <= mPosY <= SCREEN_HEIGHT - PLAYER_HEIGHT = 460`; and for every event (a
mouse motion with any integer coordinates, or an event of any other type)
`Player::move` maps a state in the region to a state in the region. -/
theorem Player_stays_in_bounds :
    Player_Player.mPosX = 260 ∧ Player_Player.mPosY = 230 ∧
    PLAYFIELD_WIDTH - PLAYER_WIDTH = 520 ∧ SCREEN_HEIGHT - PLAYER_HEIGHT = 460 ∧
    Player_Player.inBounds ∧
    (∀ (p : Player) (e : SDL_Event), p.inBounds → (p.move e).inBounds) := by
  have hx : Player_Player.mPosX = 260 := by
    have h : Int.tdiv (PLAYFIELD_WIDTH - PLAYER_WIDTH) 2 = 260 := by decide
    simp only [Player_Player, h]
    norm_num
  have hy : Player_Player.mPosY = 230 := by
    have h : Int.tdiv (SCREEN_HEIGHT - PLAYER_HEIGHT) 2 = 230 := by decide
    simp only [Player_Player, h]
    norm_num
  have hw : PLAYFIELD_WIDTH - PLAYER_WIDTH = 520 := by decide
  have hh : SCREEN_HEIGHT - PLAYER_HEIGHT = 460 := by decide
  refine ⟨hx, hy, hw, hh, ?_, Player.move_inBounds⟩
  simp only [Player.inBounds, hx, hy, hw, hh]
  norm_num

/-! ### The bullet pass skips the bullet after an erased one -/

theorem expiringBullet_move (x : ℝ) : ((expiringBullet x).move).1 = false := by
  rw [← Bool.not_eq_true, Bullet.move_fst]
  have hv := Bullet.ctor_zero_velY_pos x 480
  have hy : (expiringBullet x).mPosY = 480 := rfl
  have hvy : (expiringBullet x).mVelY = (Bullet_Bullet x 480 0).mVelY := rfl
  have hs : ((SCREEN_HEIGHT : Int) : ℝ) = 480 := by simp [SCREEN_HEIGHT]
  rw [hy, hvy, hs]
  intro h
  exact h (Or.inr (Or.inl (by linarith)))

/-- C3 fails on the code: with two adjacent bullets, created at (0, 480) and
(100, 480) with firing angle 0, that both expire on their next move, the pass
of the main loop moves and erases the first one and then steps over the second
one, which stays in the collection, not even moved; the reference pass of the
claim removes both. -/
theorem bulletPass_skips_after_erase :
    bulletPass Player_Player [expiringBullet 0, expiringBullet 100] 0 =
      ([expiringBullet 100], 0) ∧
    bulletPassSpec Player_Player [expiringBullet 0, expiringBullet 100] = [] := by
  constructor
  · unfold bulletPass
    rw [bulletLoop]
    simp only [List.length_cons, List.length_nil, Nat.zero_lt_succ, dite_true, List.get,
      expiringBullet_move, if_true, List.set_cons_zero, List.eraseIdx_cons_zero]
    rw [bulletLoop]
    simp
  · simp [bulletPassSpec, expiringBullet_move]


/-! ### Expiry and collision exclude each other -/

theorem far_of_out_of_bounds (px py bx bY : ℝ) (hx0 : 0 ≤ px) (hx1 : px ≤ 520)
    (hy0 : 0 ≤ py) (hy1 : py ≤ 460)
    (hout : (bY + BULLET_HEIGHT < 0) ∨ (bY > SCREEN_HEIGHT) ∨ (bx + BULLET_WIDTH < 0) ∨
      (bx > PLAYFIELD_WIDTH)) :
    10 + 10 < Real.sqrt ((px - bx) ^ 2 + (py - bY) ^ 2) := by
  simp only [BULLET_HEIGHT, SCREEN_HEIGHT, BULLET_WIDTH, PLAYFIELD_WIDTH, SCREEN_WIDTH,
    SCOREBOARD_WIDTH] at hout
  norm_num at hout
  apply Real.lt_sqrt_of_sq_lt
  rcases hout with h | h | h | h
  · nlinarith [sq_nonneg (px - bx)]
  · nlinarith [sq_nonneg (px - bx)]
  · nlinarith [sq_nonneg (py - bY)]
  · nlinarith [sq_nonneg (py - bY)]

theorem gap_of_out_of_bounds (px py bx bY : ℝ) (hx0 : 0 ≤ px) (hx1 : px ≤ 520)
    (hy0 : 0 ≤ py) (hy1 : py ≤ 460)
    (hout : (bY + BULLET_HEIGHT < 0) ∨ (bY > SCREEN_HEIGHT) ∨ (bx + BULLET_WIDTH < 0) ∨
      (bx > PLAYFIELD_WIDTH)) :
    20 ≤ |px - bx| ∨ 20 ≤ |py - bY| := by
  simp only [BULLET_HEIGHT, SCREEN_HEIGHT, BULLET_WIDTH, PLAYFIELD_WIDTH, SCREEN_WIDTH,
    SCOREBOARD_WIDTH] at hout
  norm_num at hout
  rcases hout with h | h | h | h
  · exact Or.inr (le_trans (by linarith) (le_abs_self _))
  · exact Or.inr (le_trans (by linarith) (neg_le_abs _))
  · exact Or.inl (le_trans (by linarith) (le_abs_self _))
  · exact Or.inl (le_trans (by linarith) (neg_le_abs _))

theorem fl_sq_gap {t : ℝ} (ht : 20 ≤ |t|) : 400 ≤ fl (fl |t| ^ 2) := by
  have e20 : fl (20 : ℝ) = 20 := by
    have := fl_intCast 20 (by norm_num)
    exact_mod_cast this
  have e400 : fl (400 : ℝ) = 400 := by
    have := fl_intCast 400 (by norm_num)
    exact_mod_cast this
  have h1 : (20 : ℝ) ≤ fl |t| := le_trans (le_of_eq e20.symm) (fl_mono ht)
  have h2 : (400 : ℝ) ≤ fl |t| ^ 2 := by nlinarith
  exact le_trans (le_of_eq e400.symm) (fl_mono h2)

theorem checkCollision_far (x1 y1 x2 y2 : ℝ) (gScore : Int)
    (hgap : 20 ≤ |x1 - x2| ∨ 20 ≤ |y1 - y2|) :
    checkCollision x1 y1 10 x2 y2 10 gScore = (false, gScore) := by
  have e20 : fl (20 : ℝ) = 20 := by
    have := fl_intCast 20 (by norm_num)
    exact_mod_cast this
  have e400 : fl (400 : ℝ) = 400 := by
    have := fl_intCast 400 (by norm_num)
    exact_mod_cast this
  have er : fl ((10 : ℝ) + 10) = 20 := by
    rw [show (10 : ℝ) + 10 = 20 by norm_num]; exact e20
  have hsx : 0 ≤ fl (fl |x1 - x2| ^ 2) := fl_nonneg (sq_nonneg _)
  have hsy : 0 ≤ fl (fl |y1 - y2| ^ 2) := fl_nonneg (sq_nonneg _)
  have hsum : (400 : ℝ) ≤ fl (fl |x1 - x2| ^ 2) + fl (fl |y1 - y2| ^ 2) := by
    rcases hgap with h | h
    · have := fl_sq_gap h
      linarith
    · have := fl_sq_gap h
      linarith
  have hs : (400 : ℝ) ≤ fl (fl (fl |x1 - x2| ^ 2) + fl (fl |y1 - y2| ^ 2)) :=
    le_trans (le_of_eq e400.symm) (fl_mono hsum)
  have hroot : (20 : ℝ) ≤
      Real.sqrt (fl (fl (fl |x1 - x2| ^ 2) + fl (fl |y1 - y2| ^ 2))) := by
    apply Real.le_sqrt_of_sq_le
    norm_num
    exact hs
  have hd : (20 : ℝ) ≤
      fl (Real.sqrt (fl (fl (fl |x1 - x2| ^ 2) + fl (fl |y1 - y2| ^ 2)))) :=
    le_trans (le_of_eq e20.symm) (fl_mono hroot)
  have hmax : (20 : ℝ) ≤ DBL_MAX := by
    have h1 : (2 : ℝ) ^ 1023 ≤ DBL_MAX := DBL_MAX_ge
    have h2 : (20 : ℝ) ≤ (2 : ℝ) ^ 1023 := by norm_num
    exact le_trans h2 h1
  rw [checkCollision_abs, er]
  split_ifs with h1 h2
  · rfl
  · exfalso
    rcases h2 with h | h
    · exact absurd hmax (not_le.mpr h)
    · exact absurd hd (not_le.mpr h)
  · rfl

theorem radius_sum (p : Player) (b : Bullet) : p.getRad = 10 ∧ b.getRad = 10 := by
  have h1 : Int.tdiv PLAYER_WIDTH 2 = 10 := by decide
  have h2 : Int.tdiv BULLET_WIDTH 2 = 10 := by decide
  simp only [Player.getRad, Bullet.getRad, h1, h2]
  norm_num

theorem no_collision_of_expired (px py : ℝ) (hx0 : 0 ≤ px) (hx1 : px ≤ 520)
    (hy0 : 0 ≤ py) (hy1 : py ≤ 460) (b : Bullet) (gScore : Int)
    (hexp : (b.move).1 = false) :
    checkCollision (Player.mk px py).getPosX (Player.mk px py).getPosY (Player.mk px py).getRad
      (b.move).2.getPosX (b.move).2.getPosY (b.move).2.getRad gScore = (false, gScore) := by
  have hout : ((b.move).2.mPosY + BULLET_HEIGHT < 0) ∨ ((b.move).2.mPosY > SCREEN_HEIGHT) ∨
      ((b.move).2.mPosX + BULLET_WIDTH < 0) ∨ ((b.move).2.mPosX > PLAYFIELD_WIDTH) := by
    by_contra hin
    have halive : (b.move).1 = true := by
      rw [Bullet.move_fst]
      rw [Bullet.move_snd] at hin
      exact hin
    rw [hexp] at halive
    exact Bool.noConfusion halive
  have hgap := gap_of_out_of_bounds px py (b.move).2.mPosX (b.move).2.mPosY hx0 hx1 hy0 hy1 hout
  rw [(radius_sum (Player.mk px py) (b.move).2).1, (radius_sum (Player.mk px py) (b.move).2).2]
  exact checkCollision_far _ _ _ _ gScore hgap

theorem bulletLoopBoth_eq (px py : ℝ) (hx0 : 0 ≤ px) (hx1 : px ≤ 520)
    (hy0 : 0 ≤ py) (hy1 : py ≤ 460) :
    ∀ (n i : Nat) (gBullets : List Bullet) (gScore : Int), gBullets.length - i = n →
      bulletLoopBoth (Player.mk px py) i gBullets gScore =
        bulletLoop (Player.mk px py) i gBullets gScore := by
  intro n
  induction n using Nat.strong_induction_on with
  | _ n ih =>
    intro i gBullets gScore hn
    rw [bulletLoopBoth, bulletLoop]
    by_cases h : i < gBullets.length
    · simp only [dif_pos h]
      by_cases hm : ((gBullets.get ⟨i, h⟩).move).1 = false
      · have hc := no_collision_of_expired px py hx0 hx1 hy0 hy1 (gBullets.get ⟨i, h⟩) gScore hm
        rw [if_pos (Or.inl hm), if_pos hm, hc]
        exact ih _ (by simp only [List.length_eraseIdx, List.length_set]; split_ifs; omega)
          _ _ _ rfl
      · rw [if_neg hm]
        by_cases hc : (checkCollision (Player.mk px py).getPosX (Player.mk px py).getPosY
            (Player.mk px py).getRad ((gBullets.get ⟨i, h⟩).move).2.getPosX
            ((gBullets.get ⟨i, h⟩).move).2.getPosY ((gBullets.get ⟨i, h⟩).move).2.getRad
            gScore).1 = true
        · rw [if_pos (Or.inr hc), if_pos hc]
          exact ih _ (by simp only [List.length_eraseIdx, List.length_set]; split_ifs; omega)
            _ _ _ rfl
        · rw [if_neg (by tauto), if_neg hc]
          exact ih _ (by simp only [List.length_set]; omega) _ _ _ rfl
    · simp only [dif_neg h]

/-- C11: for every player position with 0 <= px <= 520 and 0 <= py <= 460 and
every bullet position (bx, bY) that fails the bounds check of `Bullet::move`,
the distance of the two positions is greater than the radius sum 10 + 10, so
`checkCollision` returns false there and leaves the score alone; so for a
bullet whose move returned false the collision test would not have scored, and
the bullet loop that evaluates both operands of
`!move() || checkCollision(...)` ends with the same collection and the same
score as the loop of the program, from every index and state. -/
theorem expiry_excludes_collision (px py : ℝ) (hx0 : 0 ≤ px) (hx1 : px ≤ 520)
    (hy0 : 0 ≤ py) (hy1 : py ≤ 460) :
    (∀ (bx bY : ℝ),
      ((bY + BULLET_HEIGHT < 0) ∨ (bY > SCREEN_HEIGHT) ∨ (bx + BULLET_WIDTH < 0) ∨
        (bx > PLAYFIELD_WIDTH)) →
      10 + 10 < Real.sqrt ((px - bx) ^ 2 + (py - bY) ^ 2) ∧
      ∀ gScore : Int, checkCollision px py 10 bx bY 10 gScore = (false, gScore)) ∧
    (∀ (b : Bullet), (Player.mk px py).getRad = 10 ∧ b.getRad = 10) ∧
    (∀ (b : Bullet) (gScore : Int), (b.move).1 = false →
      checkCollision (Player.mk px py).getPosX (Player.mk px py).getPosY
        (Player.mk px py).getRad (b.move).2.getPosX (b.move).2.getPosY (b.move).2.getRad
        gScore = (false, gScore)) ∧
    (∀ (i : Nat) (gBullets : List Bullet) (gScore : Int),
      bulletLoopBoth (Player.mk px py) i gBullets gScore =
        bulletLoop (Player.mk px py) i gBullets gScore) := by
  refine ⟨?_, ?_, ?_, ?_⟩
  · intro bx bY hout
    exact ⟨far_of_out_of_bounds px py bx bY hx0 hx1 hy0 hy1 hout, fun gScore =>
      checkCollision_far _ _ _ _ gScore (gap_of_out_of_bounds px py bx bY hx0 hx1 hy0 hy1 hout)⟩
  · intro b
    exact radius_sum _ b
  · intro b gScore hexp
    exact no_collision_of_expired px py hx0 hx1 hy0 hy1 b gScore hexp
  · intro i gBullets gScore
    exact bulletLoopBoth_eq px py hx0 hx1 hy0 hy1 _ i gBullets gScore rfl

theorem expiry_excludes_collision_witness :
    (∀ (bx bY : ℝ),
      ((bY + BULLET_HEIGHT < 0) ∨ (bY > SCREEN_HEIGHT) ∨ (bx + BULLET_WIDTH < 0) ∨
        (bx > PLAYFIELD_WIDTH)) →
      10 + 10 < Real.sqrt (((260 : ℝ) - bx) ^ 2 + ((230 : ℝ) - bY) ^ 2) ∧
      ∀ gScore : Int, checkCollision 260 230 10 bx bY 10 gScore = (false, gScore)) ∧
    (∀ (b : Bullet), (Player.mk 260 230).getRad = 10 ∧ b.getRad = 10) ∧
    (∀ (b : Bullet) (gScore : Int), (b.move).1 = false →
      checkCollision (Player.mk 260 230).getPosX (Player.mk 260 230).getPosY
        (Player.mk 260 230).getRad (b.move).2.getPosX (b.move).2.getPosY (b.move).2.getRad
        gScore = (false, gScore)) ∧
    (∀ (i : Nat) (gBullets : List Bullet) (gScore : Int),
      bulletLoopBoth (Player.mk 260 230) i gBullets gScore =
        bulletLoop (Player.mk 260 230) i gBullets gScore) :=
  expiry_excludes_collision 260 230 (by norm_num) (by norm_num) (by norm_num) (by norm_num)
